import Mathlib

/-!
Framing and request correlation of `src/lsp/connection.cc`.

A shallow embedding of the `Connection` class: the header/body packet state
machine (`read_header`, `read_body`, `onReadyRead`), the outbound framing
(`send`) and the table of pending requests (`pending_messages`).

Conventions of the embedding.

* `QString`, `QByteArray` and `std::string` are lists of characters.  On the
  inbound side one list element is one character as the text stream decodes
  it, which is what `QTextStream::read(n)` counts; on the wire a character
  takes `utf8_bytes` bytes (UTF-8).  A `QByteArray` that is sent is the list
  of its bytes.  On ASCII text characters and bytes are the same.  Characters
  outside the Basic Multilingual Plane, which are two `QChar` each, are
  outside the embedding.
* `in_stream` holds the characters that are available and not yet read;
  `atEnd` is true exactly when it is empty.  `out_stream` holds everything
  written so far.
* Calls that leave the class are recorded in traces: `handled` lists the
  payloads given to `handler->handle_message`, `invoked` the callbacks that
  were called together with the response they were called with, `warnings` the
  texts given to `warn`.  Output to `std::cout` / `std::cerr` is not state and
  is left out.
* The wall clock and the external codec are parameters of the functions that
  use them.
-/

namespace Lsp

/-! ## Text primitives -/

/-- Contents of a `QByteArray`, `QString` or `std::string`. -/
abbrev Text := List Char

/-- The function `std::isspace` in the "C" locale. -/
def isspace (b : Char) : Bool :=
  b == ' ' || b == '\t' || b == '\n' || b == '\x0b' || b == '\x0c' || b == '\r'

/-- The function `std::isdigit`. -/
def isdigit (b : Char) : Bool :=
  decide (48 ≤ b.toNat) && decide (b.toNat ≤ 57)

/-- Search of `std::string::find(pat)` from position 0: index of the first
occurrence; `none` stands for `std::string::npos`. -/
def find (pat : Text) : Text → Option Nat
  | [] => if pat.isPrefixOf [] then some 0 else none
  | c :: s =>
    if pat.isPrefixOf (c :: s) then some 0
    else (find pat s).map (fun i => i + 1)

/-- Extraction `std::string::substr(pos, count)`; the count `none` stands for
`std::string::npos`, which takes everything up to the end. -/
def substr (s : Text) (pos : Nat) (count : Option Nat) : Text :=
  match count with
  | none => s.drop pos
  | some n => (s.drop pos).take n

/-- Conversion `QString::number(n).toUtf8()` for a size `n ≥ 0`: the decimal
representation without sign or padding. -/
def QString_number (n : Nat) : Text :=
  Nat.toDigits 10 n

/-- Value of the longest prefix of decimal digits, continuing from `acc`. -/
def digitsValue : Text → Nat → Nat
  | [], acc => acc
  | c :: s, acc => if isdigit c then digitsValue s (10 * acc + (c.toNat - 48)) else acc

/-- Conversion `strtol(s, NULL, 10)` for a 64-bit `long`: leading white space,
an optional sign, decimal digits, saturating at the range of `long`. -/
def strtol (s : Text) : Int :=
  let t := s.dropWhile isspace
  if t.head? = some '-' then max (-(digitsValue t.tail 0 : Int)) (-(2 ^ 63 : Int))
  else if t.head? = some '+' then min (digitsValue t.tail 0 : Int) (2 ^ 63 - 1)
  else min (digitsValue t 0 : Int) (2 ^ 63 - 1)

/-- Conversion of a `long` to a 32-bit `int`. -/
def toInt32 (z : Int) : Int :=
  (z + 2 ^ 31) % 2 ^ 32 - 2 ^ 31

/-- The function `std::atoi`, as glibc has it: `(int) strtol(s, NULL, 10)`. -/
def atoi (s : Text) : Int :=
  toInt32 (strtol s)

/-- Conversion of an `int` to a 64-bit `size_t`. -/
def to_size_t (z : Int) : Nat :=
  (z % 2 ^ 64).toNat

/-! ## Text stream primitives (`QTextStream`) -/

/-- Removes one trailing carriage return, if there is one. -/
def dropTrailingCR : Text → Text
  | [] => []
  | [c] => if c = '\r' then [] else [c]
  | c :: d :: s => c :: dropTrailingCR (d :: s)

/-- Characters before the first line feed. -/
def lineOf : Text → Text
  | [] => []
  | c :: s => if c = '\n' then [] else c :: lineOf s

/-- Characters after the first line feed (nothing when there is none). -/
def afterLine : Text → Text
  | [] => []
  | c :: s => if c = '\n' then s else afterLine s

/-- The call `QTextStream::readLine()`: the text up to the next line feed (or
up to the end of the data) without the trailing "\n" or "\r\n", paired with
the characters left in the stream. -/
def readLine (s : Text) : Text × Text :=
  (dropTrailingCR (lineOf s), afterLine s)

/-- Conversion of a 64-bit `size_t` to a `qint64`. -/
def toInt64 (n : Nat) : Int :=
  ((n : Int) + 2 ^ 63) % 2 ^ 64 - 2 ^ 63

/-- The call `QTextStream::read(maxlen)` with the unsigned `content_length` as
argument, paired with the characters left in the stream.  Qt takes the count
as a `qint64` and returns the empty string, reading nothing, when it is not
positive; otherwise it cuts the count to an `int` and returns at most that
many characters of what is available.  The count is a number of characters
(`QChar`), not of bytes.  A count that the cut to `int` makes 0 reads nothing.
What Qt does with a count that the cut makes negative depends on the state of
its buffer and is outside the embedding: nothing is read here. -/
def read (s : Text) (maxlen : Nat) : Text × Text :=
  if 0 < toInt64 maxlen ∧ 0 < toInt32 (toInt64 maxlen) then
    (s.take (toInt32 (toInt64 maxlen)).toNat, s.drop (toInt32 (toInt64 maxlen)).toNat)
  else ([], s)

/-! ## Data model -/

/-- The enumeration `PACKET_EXPECT`: what `onReadyRead` reads next. -/
inductive PACKET_EXPECT where
  | HEADER
  | BODY
  deriving DecidableEq, Repr

/-- The struct `connection_header`.  The value `0` of `content_length` means
"not given": `read_body` tests `content_length == 0`, and a fresh
`connection_header()` has it.  The type holds the `size_t` that `read_header`
assigns. -/
structure connection_header where
  content_length : Nat := 0
  deriving DecidableEq, Repr

/-- Tag of a `RequestId` (`RequestId::INT`, `RequestId::AUTO_INCREMENT`, and
the tags of an unset and of a string id). -/
inductive IdType where
  | UNSET
  | INT
  | STRING
  | AUTO_INCREMENT
  deriving DecidableEq, Repr

/-- The struct `RequestId`: a tag and the two value fields the source reads
(`value_int`, `value_str`). -/
structure RequestId where
  type : IdType := IdType.UNSET
  value_int : Int := 0
  value_str : Text := []
  deriving DecidableEq, Repr

/-- Modelled from the spec: `RequestId::is_set()` is declared in `messages.h`,
outside the file.  The spec reads `!msg.id.is_set()` as "the id is unset", the
first of the four shapes of a RequestId, and `log` passes `{}` with the comment
"No ID set". -/
def RequestId.is_set (id : RequestId) : Bool :=
  decide (id.type ≠ IdType.UNSET)

/-- A `ResponseMessage`: its id, and the rest of the message (result or
error) as `content`. -/
structure ResponseMessage where
  id : RequestId
  content : Text
  deriving DecidableEq, Repr

/-- A `RequestMessage`: its id, its method name, and the rest of the message
as `content`. -/
structure RequestMessage where
  id : RequestId
  method : Text
  content : Text
  deriving DecidableEq, Repr

/-- A `request_callback_t`.  Callbacks are external code; the embedding keeps
their identity and records each call. -/
abbrev request_callback_t := Nat

/-- The struct `pending_message`: the callback of a request that was sent and
the time at which it was stored (`pending_message(callback)` stamps the entry
with the current time). -/
structure pending_message where
  callback : request_callback_t
  pending_since : Int
  deriving DecidableEq, Repr

/-- The container of `pending_messages`: an associative container from `int`
to `pending_message`, kept as a list of entries in increasing key order. -/
abbrev pending_map := List (Int × pending_message)

/-- Keys of a table, in order. -/
def map_keys (m : pending_map) : List Int :=
  m.map Prod.fst

/-- Container invariant: the keys are strictly increasing, hence unique. -/
def map_wf (m : pending_map) : Prop :=
  (map_keys m).Pairwise (fun a b => a < b)

instance (m : pending_map) : Decidable (map_wf m) := by
  unfold map_wf; infer_instance

/-- The call `pending_messages.find(k)`: the entry stored under `k`, `none`
for `end()`. -/
def map_find : pending_map → Int → Option pending_message
  | [], _ => none
  | (k', v) :: m, k => if k' = k then some v else map_find m k

/-- The call `pending_messages.erase(it)` for the iterator that `find(k)`
returned. -/
def map_erase : pending_map → Int → pending_map
  | [], _ => []
  | (k', v) :: m, k => if k' = k then m else (k', v) :: map_erase m k

/-- Insertion of a new entry at its place in the key order. -/
def map_insert : pending_map → Int → pending_message → pending_map
  | [], k, v => [(k, v)]
  | (k', v') :: m, k, v =>
    if k < k' then (k, v) :: (k', v') :: m else (k', v') :: map_insert m k v

/-- The call `pending_messages.emplace(std::make_pair(k, v))`: stores `v`
under `k` unless the key is present already, in which case the container is
left as it is. -/
def map_emplace (m : pending_map) (k : Int) (v : pending_message) : pending_map :=
  match map_find m k with
  | some _ => m
  | none => map_insert m k v

/-- State of a `Connection`, with the traces of the calls that leave it.  The
counter `next_request_id` is declared outside the file; it and the keys of the
table are integers without a bound, so the overflow of a machine integer by
the increment is not part of the embedding. -/
structure Connection where
  in_stream : Text
  out_stream : Text
  packet_state : PACKET_EXPECT
  header : connection_header
  pending_messages : pending_map
  next_request_id : Int
  handled : List Text
  invoked : List (request_callback_t × ResponseMessage)
  warnings : List Text
  deriving DecidableEq, Repr

/-- The test `in_stream->atEnd()`. -/
def atEnd (c : Connection) : Bool :=
  c.in_stream.isEmpty

/-- Modelled from the spec: `Connection::warn` is declared in `connection.h`,
outside the file.  The spec has it report a warning that does not touch the
parsing; the text is recorded. -/
def warn (c : Connection) (text : Text) : Connection :=
  { c with warnings := c.warnings ++ [text] }

/-! ## Inbound: the packet state machine -/

/-- The function `is_strip_empty`: every character is white space. -/
def is_strip_empty : Text → Bool
  | [] => true
  | b :: data => if !isspace b then false else is_strip_empty data

/-- The function `read_header_line`: field name and field value of one header
line. -/
def read_header_line (str : Text) : Text × Text :=
  match find ": ".toList str with
  | none => ([], "no sep".toList)
  | some sep_pos =>
    let end_pos := find "\r\n".toList str
    (substr str 0 (some sep_pos), substr str (sep_pos + 2) end_pos)

/-- Body of the loop of `read_header` for one line that is not blank. -/
def header_field (c : Connection) (pending_data : Text) : Connection :=
  let field := read_header_line pending_data
  if field.1 = "Content-Length".toList then
    let l := to_size_t (atoi field.2)
    if l > 0 then { c with header := { c.header with content_length := l } } else c
  else if field.1 = "Content-Type".toList then
    c
  else
    warn c ("Unknown header field ".toList ++ field.1)

/-- The loop of `read_header`, one iteration per unit of `fuel`. -/
def read_header_loop : Nat → Connection → Connection
  | 0, c => c
  | fuel + 1, c =>
    if atEnd c then c
    else
      let pending_data := (readLine c.in_stream).1
      let c1 := { c with in_stream := (readLine c.in_stream).2 }
      if is_strip_empty pending_data then
        { c1 with packet_state := PACKET_EXPECT.BODY }
      else
        read_header_loop fuel (header_field c1 pending_data)

/-- The method `Connection::read_header`.  Every iteration of the loop takes
at least one character from the stream, so the number of available characters
is fuel enough (`read_header_loop_fuel`). -/
def read_header (c : Connection) : Connection :=
  read_header_loop c.in_stream.length c

/-- The method `Connection::read_body`. -/
def read_body (c : Connection) : Connection :=
  if c.header.content_length = 0 then
    { c with packet_state := PACKET_EXPECT.HEADER }
  else
    let pending_data := (read c.in_stream c.header.content_length).1
    { c with
      in_stream := (read c.in_stream c.header.content_length).2
      handled := c.handled ++ [pending_data]
      packet_state := PACKET_EXPECT.HEADER
      header := {} }

/-- The slot `Connection::onReadyRead`: one step of the state machine. -/
def onReadyRead (c : Connection) : Connection :=
  match c.packet_state with
  | PACKET_EXPECT.HEADER => read_header c
  | PACKET_EXPECT.BODY => read_body c

/-! ## Correlation of responses -/

/-- The method `Connection::handle_pending_response`. -/
def handle_pending_response (c : Connection) (msg : ResponseMessage) : Connection :=
  if msg.id.type ≠ IdType.INT then c
  else
    match map_find c.pending_messages msg.id.value_int with
    | some it =>
      { c with
        invoked := c.invoked ++ [(it.callback, msg)]
        pending_messages := map_erase c.pending_messages msg.id.value_int }
    | none => c

/-- The loop of `clean_pending_messages` over the container: the entries that
stay, and the number `cnt` of entries erased. -/
def clean_loop (now max_age : Int) : pending_map → pending_map × Nat
  | [] => ([], 0)
  | (k, v) :: m =>
    if now - v.pending_since > max_age then
      ((clean_loop now max_age m).1, (clean_loop now max_age m).2 + 1)
    else
      ((k, v) :: (clean_loop now max_age m).1, (clean_loop now max_age m).2)

/-- The method `Connection::clean_pending_messages`; `now` is the reading of
the clock.  Returns the count `cnt` that is reported, too. -/
def clean_pending_messages (now max_age : Int) (c : Connection) : Connection × Nat :=
  ({ c with pending_messages := (clean_loop now max_age c.pending_messages).1 },
    (clean_loop now max_age c.pending_messages).2)

/-! ## Outbound -/

/-- The header block that `send` builds in `headerbuf`. -/
def headerbuf (data : Text) : Text :=
  "Content-Length: ".toList ++ QString_number data.length ++ "\r\n\r\n".toList

/-- The method `Connection::send(const QByteArray &)`. -/
def send (c : Connection) (data : Text) : Connection :=
  let c1 := { c with out_stream := c.out_stream ++ headerbuf data }
  { c1 with out_stream := c1.out_stream ++ data }

/-- The method `Connection::send(ResponseMessage &, const RequestId &)`;
`store` is the external codec (`decode_env::store`).  Returns the message as
the call leaves it, too. -/
def send_ResponseMessage (store : ResponseMessage → Text) (c : Connection)
    (msg : ResponseMessage) (id : RequestId) : Connection × ResponseMessage :=
  let msg1 := if !msg.id.is_set then { msg with id := id } else msg
  (send c (store msg1), msg1)

/-- The method `Connection::send(RequestMessage &, const std::string &,
const RequestId &, request_callback_t)`; `store` is the external codec and
`now` the time at which the pending entry is stamped.  Returns the message as
the call leaves it, too. -/
def send_RequestMessage (store : RequestMessage → Text) (now : Int) (c : Connection)
    (msg : RequestMessage) (method : Text) (id : RequestId)
    (callback : request_callback_t) : Connection × RequestMessage :=
  let msg1 := if !msg.id.is_set then { msg with id := id } else msg
  let auto := decide (msg1.id.type = IdType.AUTO_INCREMENT)
  let msg2 :=
    if auto then
      { msg1 with id := { msg1.id with type := IdType.INT, value_int := c.next_request_id } }
    else msg1
  let c1 := if auto then { c with next_request_id := c.next_request_id + 1 } else c
  let msg3 := if msg2.method.isEmpty then { msg2 with method := method } else msg2
  let c2 :=
    if msg3.id.is_set then
      { c1 with pending_messages :=
          map_emplace c1.pending_messages msg3.id.value_int ⟨callback, now⟩ }
    else c1
  (send c2 (store msg3), msg3)

/-! ## Statements and concrete instances -/

/-- A header line that `read_header` takes for something other than a
Content-Length field: it is a line, it is not blank, and its field name is not
"Content-Length". -/
def other_header_line (l : Text) : Prop :=
  '\n' ∉ l ∧ is_strip_empty l = false ∧ (read_header_line l).1 ≠ "Content-Length".toList

instance (l : Text) : Decidable (other_header_line l) := by
  unfold other_header_line; infer_instance

/-- Header lines as they stand in the stream, each followed by "\r\n". -/
def header_block : List Text → Text
  | [] => []
  | l :: ls => l ++ "\r\n".toList ++ header_block ls

/-- A connection with nothing pending that waits for a header and has `inp`
available to read; used for the concrete instances. -/
def idle (inp : Text) : Connection :=
  { in_stream := inp, out_stream := [], packet_state := PACKET_EXPECT.HEADER, header := {},
    pending_messages := [], next_request_id := 0, handled := [], invoked := [], warnings := [] }

/-- The end-to-end scenario: a Content-Type line, "Content-Length: 13", an
unknown header line, the blank line, a body of 13 characters, and the start
of the next message. -/
def scenario_input : Text :=
  ("Content-Type: application/vscode-jsonrpc; charset=utf-8\r\nContent-Length: 13\r\n"
    ++ "X-Trace: 1\r\n\r\n\x7b\"id\":1,\"\":0\x7dContent-").toList

/-- A connection that waits for a body of `n` characters and has `inp`
available to read; used for the concrete instances. -/
def awaiting_body (n : Nat) (inp : Text) : Connection :=
  { idle inp with packet_state := PACKET_EXPECT.BODY, header := { content_length := n } }

/-- An integer id. -/
def int_id (n : Int) : RequestId :=
  { type := IdType.INT, value_int := n }

/-- The placeholder id that asks for the next value of the counter. -/
def auto_id : RequestId :=
  { type := IdType.AUTO_INCREMENT }

/-- A string id. -/
def string_id (s : Text) : RequestId :=
  { type := IdType.STRING, value_str := s }

/-- A codec for the concrete instances: the method name, a blank and the
content. -/
def plain_store (msg : RequestMessage) : Text :=
  msg.method ++ ' ' :: msg.content

/-- The state after a request with the explicit integer id 0 and the
callback 7 was sent, at time 0, on a connection that had nothing pending and
whose counter stands at 0. -/
def explicit_zero_pending : Connection :=
  (send_RequestMessage plain_store 0 (idle [])
    { id := int_id 0, method := "a".toList, content := [] } [] {} 7).1

/-- A request without an explicit id, for the concrete instances. -/
def auto_request : RequestMessage :=
  { id := auto_id, method := "b".toList, content := [] }

/-- The request `auto_request` sent with callback 9 at time 1 on a connection
that had nothing pending. -/
def auto_sent : Connection × RequestMessage :=
  send_RequestMessage plain_store 1 (idle []) auto_request [] {} 9

/-- The state after the response with id 0 has arrived. -/
def auto_answered : Connection :=
  handle_pending_response auto_sent.1 { id := int_id 0, content := "ok".toList }

/-- The state after a second response with id 0 has arrived. -/
def auto_answered_twice : Connection :=
  handle_pending_response auto_answered { id := int_id 0, content := "again".toList }

/-- The arguments of one call of `send` for a request, and the clock at the
call. -/
structure request_call where
  now : Int
  msg : RequestMessage
  method : Text
  id : RequestId
  callback : request_callback_t

/-- A request that is sent without an explicit id: its id is the
auto-increment placeholder, or it has no id and the fallback `id` is the
placeholder. -/
def is_auto_call (msg : RequestMessage) (id : RequestId) : Prop :=
  msg.id.type = IdType.AUTO_INCREMENT
    ∨ (msg.id.type = IdType.UNSET ∧ id.type = IdType.AUTO_INCREMENT)

instance (msg : RequestMessage) (id : RequestId) : Decidable (is_auto_call msg id) := by
  unfold is_auto_call; infer_instance

/-- Successive calls of `send` for requests: the state after the last call and
the messages as the calls leave them, in call order. -/
def send_all (store : RequestMessage → Text) :
    Connection → List request_call → Connection × List RequestMessage
  | c, [] => (c, [])
  | c, r :: rs =>
    ((send_all store (send_RequestMessage store r.now c r.msg r.method r.id r.callback).1 rs).1,
      (send_RequestMessage store r.now c r.msg r.method r.id r.callback).2
        :: (send_all store
            (send_RequestMessage store r.now c r.msg r.method r.id r.callback).1 rs).2)

/-- Three requests without an explicit id, the last one by way of the
fallback id. -/
def three_auto_calls : List request_call :=
  [ { now := 1, msg := auto_request, method := [], id := {}, callback := 7 },
    { now := 2, msg := auto_request, method := [], id := {}, callback := 8 },
    { now := 3, msg := { id := {}, method := [], content := [] }, method := "c".toList,
      id := auto_id, callback := 9 } ]

/-- The id that a request carries when `send` consults the counter: its own
id, or the fallback `id` when its own is unset. -/
def request_id_of (msg : RequestMessage) (id : RequestId) : RequestId :=
  if msg.id.is_set then msg.id else id

/-- A request that cannot put a key at or above the counter into the table:
the id is left to the counter, or there is no id at all, or the `value_int`
of the id is below the counter. -/
def id_below_counter (c : Connection) (msg : RequestMessage) (id : RequestId) : Prop :=
  (request_id_of msg id).type = IdType.AUTO_INCREMENT
    ∨ (request_id_of msg id).type = IdType.UNSET
    ∨ (request_id_of msg id).value_int < c.next_request_id

instance (c : Connection) (msg : RequestMessage) (id : RequestId) :
    Decidable (id_below_counter c msg id) := by
  unfold id_below_counter; infer_instance

/-- Any request is admitted. -/
def any_request (_ : Connection) (_ : RequestMessage) (_ : RequestId) : Prop :=
  True

/-- The states that a connection reaches from one with an empty table by
requests that `allowed` admits, by responses and by sweeps of
`clean_pending_messages`. -/
inductive reachable_with (store : RequestMessage → Text)
    (allowed : Connection → RequestMessage → RequestId → Prop) : Connection → Prop where
  | start (c : Connection) : c.pending_messages = [] → reachable_with store allowed c
  | request (c : Connection) (now : Int) (msg : RequestMessage) (method : Text)
      (id : RequestId) (callback : request_callback_t) :
      reachable_with store allowed c → allowed c msg id →
      reachable_with store allowed (send_RequestMessage store now c msg method id callback).1
  | response (c : Connection) (msg : ResponseMessage) :
      reachable_with store allowed c →
      reachable_with store allowed (handle_pending_response c msg)
  | sweep (c : Connection) (now max_age : Int) :
      reachable_with store allowed c →
      reachable_with store allowed (clean_pending_messages now max_age c).1

/-- A state reached with requests whose ids are left to the counter: the
request `auto_request` was sent, a response with the unknown id 5 arrived, and
the table was swept at time 10 for entries older than 100. -/
def swept_state : Connection :=
  (clean_pending_messages 10 100
    (handle_pending_response auto_sent.1 { id := int_id 5, content := [] })).1

/-- A table with the entries 1 and 3 stored at time 0 and the entry 2 stored
at time 50, waiting on a connection. -/
def aged_state : Connection :=
  { idle [] with
    pending_messages := [(1, ⟨7, 0⟩), (2, ⟨8, 50⟩), (3, ⟨9, 0⟩)], next_request_id := 4 }

/-- The frame of one message as `send` writes it: header block, then body. -/
def frame (data : Text) : Text :=
  headerbuf data ++ data

/-- The frames of a list of messages, one after the other. -/
def frames : List Text → Text
  | [] => []
  | p :: ps => frame p ++ frames ps

/-- Steps of the state machine, one `onReadyRead` after the other, for as long
as there is input to read; `fuel` bounds the number of steps. -/
def drive : Nat → Connection → Connection
  | 0, c => c
  | fuel + 1, c => if atEnd c then c else drive fuel (onReadyRead c)

/-- The lines after the first blank line of a list of lines; `none` when the
list has no blank line. -/
def lines_after_blank : List Text → Option (List Text)
  | [] => none
  | l :: ls => if is_strip_empty l then some ls else lines_after_blank ls

/-- More input becomes available behind what is still unread. -/
def arrive (c : Connection) (data : Text) : Connection :=
  { c with in_stream := c.in_stream ++ data }

/-- An unknown header line, a line of a tab and a blank, and a line behind it. -/
def mixed_lines : List Text :=
  ["X-A: b".toList, "\t ".toList, "Content-Length: 5".toList]

/-- Two header lines that have arrived, without a blank line. -/
def early_lines : List Text :=
  ["Content-Length: 5".toList, "X-A: b".toList]

/-- The lines that arrive later: the blank line and a line behind it. -/
def late_lines : List Text :=
  [[], "abcde".toList]

/-- Number of bytes that a character takes on the wire, in UTF-8. -/
def utf8_bytes (ch : Char) : Nat :=
  if ch.toNat < 128 then 1
  else if ch.toNat < 2048 then 2
  else if ch.toNat < 65536 then 3
  else 4

/-- Number of bytes of a text in UTF-8: the `size()` of the `QByteArray` that
holds it. -/
def utf8_size (t : Text) : Nat :=
  (t.map utf8_bytes).sum

/-- The characters that the text stream decodes from the frame of the message
`body`: the header block declares the number of bytes of the body, as `send`
writes it and as the wire format has it. -/
def wire_frame (body : Text) : Text :=
  "Content-Length: ".toList ++ QString_number (utf8_size body) ++ "\r\n\r\n".toList ++ body

/-- A blank line in the words of the spec: every character is white space
(blank, tab, line feed, vertical tab, form feed, carriage return). -/
def whitespace_only (l : Text) : Prop :=
  ∀ ch ∈ l, ch ∈ [' ', '\t', '\n', '\x0b', '\x0c', '\r']

instance (l : Text) : Decidable (whitespace_only l) := by
  unfold whitespace_only; infer_instance

/-- The text up to, and not including, the first line terminator "\r\n"; the
whole text when there is none. -/
def before_terminator : Text → Text
  | [] => []
  | [c] => [c]
  | c :: d :: s => if c = '\r' ∧ d = '\n' then [] else c :: before_terminator (d :: s)

/-! ## Decimal numbers: `QString::number` read back by `atoi` -/

theorem digitChar_isdigit (d : Nat) (h : d < 10) :
    isdigit (Nat.digitChar d) = true ∧ (Nat.digitChar d).toNat - 48 = d := by
  interval_cases d <;> decide

theorem isdigit_not_special (ch : Char) (h : isdigit ch = true) :
    isspace ch = false ∧ ch ≠ '-' ∧ ch ≠ '+' ∧ ch ≠ '\n' ∧ ch ≠ '\r' ∧ ch ≠ ':' := by
  refine ⟨?_, ?_, ?_, ?_, ?_, ?_⟩
  · cases hs : isspace ch
    · rfl
    · exfalso
      simp only [isspace, Bool.or_eq_true, beq_iff_eq] at hs
      rcases hs with ((((hs | hs) | hs) | hs) | hs) | hs <;> subst hs <;> revert h <;> decide
  all_goals (intro hs; subst hs; revert h; decide)

theorem toDigitsCore_value (fuel : Nat) : ∀ (n : Nat) (ds : Text), n < fuel →
    ∃ k, ∀ acc, digitsValue (Nat.toDigitsCore 10 fuel n ds) acc
      = digitsValue ds (acc * 10 ^ k + n) := by
  induction fuel with
  | zero => intro n ds h; omega
  | succ fuel ih =>
    intro n ds h
    obtain ⟨hd, hv⟩ := digitChar_isdigit (n % 10) (Nat.mod_lt _ (by decide))
    by_cases h0 : n / 10 = 0
    · refine ⟨1, fun acc => ?_⟩
      have hn : n % 10 = n := Nat.mod_eq_of_lt (by omega)
      simp only [Nat.toDigitsCore, h0, if_true, digitsValue, hd, hv]
      congr 1
      omega
    · obtain ⟨k, hk⟩ := ih (n / 10) (Nat.digitChar (n % 10) :: ds) (by omega)
      refine ⟨k + 1, fun acc => ?_⟩
      simp only [Nat.toDigitsCore, h0, if_false, hk, digitsValue, hd, hv, if_true]
      congr 1
      have := Nat.div_add_mod n 10
      rw [pow_succ]
      nlinarith [this]

theorem toDigitsCore_chars (fuel : Nat) : ∀ (n : Nat) (ds : Text) (ch : Char),
    ch ∈ Nat.toDigitsCore 10 fuel n ds → isdigit ch = true ∨ ch ∈ ds := by
  induction fuel with
  | zero => intro n ds ch h; right; simpa [Nat.toDigitsCore] using h
  | succ fuel ih =>
    intro n ds ch h
    obtain ⟨hd, _⟩ := digitChar_isdigit (n % 10) (Nat.mod_lt _ (by decide))
    by_cases h0 : n / 10 = 0
    · simp only [Nat.toDigitsCore, h0, if_true, List.mem_cons] at h
      rcases h with h | h
      · left; rw [h]; exact hd
      · right; exact h
    · simp only [Nat.toDigitsCore, h0, if_false] at h
      rcases ih _ _ _ h with h | h
      · left; exact h
      · rw [List.mem_cons] at h
        rcases h with h | h
        · left; rw [h]; exact hd
        · right; exact h

theorem toDigitsCore_ne_nil (fuel : Nat) : ∀ (n : Nat) (ds : Text),
    Nat.toDigitsCore 10 (fuel + 1) n ds ≠ [] := by
  induction fuel with
  | zero =>
    intro n ds
    by_cases h0 : n / 10 = 0 <;> simp [Nat.toDigitsCore, h0]
  | succ fuel ih =>
    intro n ds
    by_cases h0 : n / 10 = 0
    · simp [Nat.toDigitsCore, h0]
    · have := ih (n / 10) (Nat.digitChar (n % 10) :: ds)
      rw [Nat.toDigitsCore]
      simpa [h0] using this

/-- Every character of a decimal representation is a digit. -/
theorem QString_number_digits (n : Nat) (ch : Char) (h : ch ∈ QString_number n) :
    isdigit ch = true := by
  rcases toDigitsCore_chars (n + 1) n [] ch h with h | h
  · exact h
  · simp at h

theorem QString_number_ne_nil (n : Nat) : QString_number n ≠ [] :=
  toDigitsCore_ne_nil n n []

/-- The digits of `n` have the value `n`. -/
theorem digitsValue_QString_number (n : Nat) : digitsValue (QString_number n) 0 = n := by
  obtain ⟨k, hk⟩ := toDigitsCore_value (n + 1) n [] (Nat.lt_succ_self n)
  have := hk 0
  simpa [QString_number, Nat.toDigits, digitsValue] using this

/-- The function `atoi` reads a decimal representation back, within `int`. -/
theorem atoi_QString_number (n : Nat) (h : n < 2 ^ 31) :
    to_size_t (atoi (QString_number n)) = n := by
  obtain ⟨d, ds, hds⟩ := List.exists_cons_of_ne_nil (QString_number_ne_nil n)
  have hd : isdigit d = true := QString_number_digits n d (by rw [hds]; simp)
  obtain ⟨h1, h2, h3, -⟩ := isdigit_not_special d hd
  have hval := digitsValue_QString_number n
  rw [hds] at hval
  have hdrop : List.dropWhile isspace (d :: ds) = d :: ds := by
    simp [List.dropWhile, h1]
  simp only [atoi, strtol, hds, hdrop, List.head?_cons, Option.some.injEq, h2, h3, if_false,
    hval, toInt32, to_size_t]
  norm_num at h ⊢
  omega

/-! ## Lines of the text stream -/

theorem lineOf_append (l rest : Text) (h : '\n' ∉ l) :
    lineOf (l ++ '\n' :: rest) = l := by
  induction l with
  | nil => simp [lineOf]
  | cons x l ih =>
    have hx : x ≠ '\n' := fun e => h (by simp [e])
    have hl : '\n' ∉ l := fun e => h (List.mem_cons_of_mem _ e)
    simp [lineOf, hx, ih hl]

theorem afterLine_append (l rest : Text) (h : '\n' ∉ l) :
    afterLine (l ++ '\n' :: rest) = rest := by
  induction l with
  | nil => simp [afterLine]
  | cons x l ih =>
    have hx : x ≠ '\n' := fun e => h (by simp [e])
    have hl : '\n' ∉ l := fun e => h (List.mem_cons_of_mem _ e)
    simp [afterLine, hx, ih hl]

theorem dropTrailingCR_append (l : Text) : dropTrailingCR (l ++ ['\r']) = l := by
  induction l with
  | nil => simp [dropTrailingCR]
  | cons x l ih =>
    cases l with
    | nil => simp [dropTrailingCR]
    | cons y l => simpa [dropTrailingCR] using ih

/-- A line that was written with the terminator "\r\n" is read back as it
was written, and the stream continues after the terminator. -/
theorem readLine_crlf (l rest : Text) (h : '\n' ∉ l) :
    readLine (l ++ '\r' :: '\n' :: rest) = (l, rest) := by
  have h2 : '\n' ∉ l ++ ['\r'] := by
    simp only [List.mem_append, List.mem_singleton, not_or]
    exact ⟨h, by decide⟩
  have e : l ++ '\r' :: '\n' :: rest = (l ++ ['\r']) ++ '\n' :: rest := by simp
  rw [readLine, e, lineOf_append _ _ h2, afterLine_append _ _ h2, dropTrailingCR_append]

theorem afterLine_length_lt (s : Text) (h : s ≠ []) : (afterLine s).length < s.length := by
  induction s with
  | nil => exact absurd rfl h
  | cons x s ih =>
    by_cases hx : x = '\n'
    · simp [afterLine, hx]
    · by_cases hs : s = []
      · simp [afterLine, hx, hs]
      · have := ih hs
        simp only [afterLine, hx, if_false, List.length_cons]
        omega

/-! ## The header loop -/

@[simp] theorem header_field_in_stream (c : Connection) (l : Text) :
    (header_field c l).in_stream = c.in_stream := by
  unfold header_field warn; dsimp only; split_ifs <;> rfl

@[simp] theorem header_field_packet_state (c : Connection) (l : Text) :
    (header_field c l).packet_state = c.packet_state := by
  unfold header_field warn; dsimp only; split_ifs <;> rfl

@[simp] theorem header_field_handled (c : Connection) (l : Text) :
    (header_field c l).handled = c.handled := by
  unfold header_field warn; dsimp only; split_ifs <;> rfl

@[simp] theorem header_field_pending (c : Connection) (l : Text) :
    (header_field c l).pending_messages = c.pending_messages := by
  unfold header_field warn; dsimp only; split_ifs <;> rfl

@[simp] theorem header_field_next_id (c : Connection) (l : Text) :
    (header_field c l).next_request_id = c.next_request_id := by
  unfold header_field warn; dsimp only; split_ifs <;> rfl

@[simp] theorem header_field_out_stream (c : Connection) (l : Text) :
    (header_field c l).out_stream = c.out_stream := by
  unfold header_field warn; dsimp only; split_ifs <;> rfl

@[simp] theorem header_field_invoked (c : Connection) (l : Text) :
    (header_field c l).invoked = c.invoked := by
  unfold header_field warn; dsimp only; split_ifs <;> rfl

theorem read_header_loop_step (fuel : Nat) (c : Connection) :
    read_header_loop (fuel + 1) c =
      if atEnd c then c
      else if is_strip_empty (readLine c.in_stream).1 then
        { c with in_stream := (readLine c.in_stream).2, packet_state := PACKET_EXPECT.BODY }
      else
        read_header_loop fuel
          (header_field { c with in_stream := (readLine c.in_stream).2 } (readLine c.in_stream).1) :=
  rfl

/-- One more unit of fuel changes nothing once the fuel covers the available
characters: the loop of `read_header` ends by itself. -/
theorem read_header_loop_succ (n : Nat) : ∀ c : Connection, c.in_stream.length ≤ n →
    read_header_loop (n + 1) c = read_header_loop n c := by
  induction n with
  | zero =>
    intro c h
    have hnil : c.in_stream = [] := List.length_eq_zero.mp (Nat.le_zero.mp h)
    simp [read_header_loop, atEnd, hnil]
  | succ n ih =>
    intro c h
    by_cases hend : atEnd c = true
    · simp [read_header_loop, hend]
    · have hne : c.in_stream ≠ [] := by
        intro e; apply hend; simp [atEnd, e]
      have hlt := afterLine_length_lt c.in_stream hne
      rw [read_header_loop_step (n + 1) c, read_header_loop_step n c]
      simp only [hend]
      by_cases hb : is_strip_empty (readLine c.in_stream).1 = true
      · simp [hb]
      · simp only [hb]
        apply ih
        simp only [header_field_in_stream, readLine]
        omega

theorem read_header_loop_fuel (n : Nat) (c : Connection) (h : c.in_stream.length ≤ n) :
    read_header_loop n c = read_header c := by
  induction n with
  | zero =>
    have : c.in_stream.length = 0 := Nat.le_zero.mp h
    rw [read_header, this]
  | succ n ih =>
    by_cases hn : c.in_stream.length ≤ n
    · rw [read_header_loop_succ n c hn, ih hn]
    · have : c.in_stream.length = n + 1 := by omega
      rw [read_header, this]

/-- The loop of `read_header` at the end of the data. -/
theorem read_header_atEnd (c : Connection) (h : c.in_stream = []) : read_header c = c := by
  simp [read_header, h, read_header_loop]

/-- The loop of `read_header` at a header line that is not blank. -/
theorem read_header_line_step (c : Connection) (l rest : Text)
    (hin : c.in_stream = l ++ '\r' :: '\n' :: rest) (hl : '\n' ∉ l)
    (hb : is_strip_empty l = false) :
    read_header c = read_header (header_field { c with in_stream := rest } l) := by
  have hlen : c.in_stream.length = (rest.length + l.length + 1) + 1 := by
    rw [hin]; simp; omega
  rw [read_header, hlen, read_header_loop_step]
  have hend : atEnd c = false := by simp [atEnd, hin]
  simp only [hend, hin, readLine_crlf l rest hl, hb]
  apply read_header_loop_fuel
  simp only [header_field_in_stream]
  omega

/-- The loop of `read_header` at a blank line. -/
theorem read_header_blank_step (c : Connection) (l rest : Text)
    (hin : c.in_stream = l ++ '\r' :: '\n' :: rest) (hl : '\n' ∉ l)
    (hb : is_strip_empty l = true) :
    read_header c = { c with in_stream := rest, packet_state := PACKET_EXPECT.BODY } := by
  have hlen : c.in_stream.length = (rest.length + l.length + 1) + 1 := by
    rw [hin]; simp; omega
  rw [read_header, hlen, read_header_loop_step]
  have hend : atEnd c = false := by simp [atEnd, hin]
  simp only [hend, hin, readLine_crlf l rest hl, hb]
  simp

/-! ## Header lines -/

theorem find_crlf_none (l : Text) (h : '\n' ∉ l) : find "\r\n".toList l = none := by
  induction l with
  | nil => rfl
  | cons x l ih =>
    have hl : '\n' ∉ l := fun e => h (List.mem_cons_of_mem _ e)
    have hp : List.isPrefixOf "\r\n".toList (x :: l) = false := by
      cases l with
      | nil => simp [List.isPrefixOf]
      | cons y l =>
        have hy : y ≠ '\n' := fun e => h (by simp [e])
        have hy2 : ('\n' == y) = false := by
          simp only [beq_eq_false_iff_ne, ne_eq]
          exact fun e => hy e.symm
        simp [List.isPrefixOf, hy2]
    rw [find, hp, ih hl]
    rfl

theorem find_sep_content_length (v : Text) :
    find ": ".toList ("Content-Length: ".toList ++ v) = some 14 := by
  simp [find, List.isPrefixOf]

/-- The function `read_header_line` on a Content-Length line as `readLine`
delivers it. -/
theorem read_header_line_content_length (v : Text) (h : '\n' ∉ v) :
    read_header_line ("Content-Length: ".toList ++ v) = ("Content-Length".toList, v) := by
  have hn : '\n' ∉ "Content-Length: ".toList ++ v := by
    simp only [List.mem_append, not_or]
    exact ⟨by decide, h⟩
  simp only [read_header_line, find_sep_content_length, find_crlf_none _ hn, substr]
  simp

/-- A Content-Length line with a positive decimal length below `2 ^ 31` sets
`content_length` to that length. -/
theorem header_field_content_length (c : Connection) (n : Nat) (hpos : 0 < n)
    (hlt : n < 2 ^ 31) :
    header_field c ("Content-Length: ".toList ++ QString_number n)
      = { c with header := { content_length := n } } := by
  have hn : '\n' ∉ QString_number n := fun e =>
    (isdigit_not_special _ (QString_number_digits n _ e)).2.2.2.1 rfl
  simp only [header_field, read_header_line_content_length _ hn, atoi_QString_number n hlt]
  simp [hpos]

theorem header_field_other (c : Connection) (l : Text)
    (h : (read_header_line l).1 ≠ "Content-Length".toList) :
    ∃ w, header_field c l = { c with warnings := w } := by
  by_cases h2 : (read_header_line l).1 = "Content-Type".toList
  · refine ⟨c.warnings, ?_⟩
    unfold header_field
    dsimp only
    rw [if_neg h, if_pos h2]
  · refine ⟨c.warnings ++ ["Unknown header field ".toList ++ (read_header_line l).1], ?_⟩
    unfold header_field warn
    dsimp only
    rw [if_neg h, if_neg h2]

/-- Header lines other than Content-Length are read one after the other and
change nothing but the warnings. -/
theorem read_header_other_lines (ls : List Text) : ∀ (c : Connection) (rest : Text),
    c.in_stream = header_block ls ++ rest → (∀ l ∈ ls, other_header_line l) →
    ∃ w, read_header c = read_header { c with in_stream := rest, warnings := w } := by
  induction ls with
  | nil =>
    intro c rest hin _
    refine ⟨c.warnings, ?_⟩
    simp only [header_block, List.nil_append] at hin
    rw [← hin]
  | cons l ls ih =>
    intro c rest hin hall
    obtain ⟨hl, hb, hname⟩ := hall l (List.mem_cons_self _ _)
    have hin2 : c.in_stream = l ++ '\r' :: '\n' :: (header_block ls ++ rest) := by
      rw [hin]; simp [header_block]
    rw [read_header_line_step c l _ hin2 hl hb]
    obtain ⟨w, hw⟩ := header_field_other { c with in_stream := header_block ls ++ rest } l hname
    rw [hw]
    obtain ⟨w2, hw2⟩ := ih { c with in_stream := header_block ls ++ rest, warnings := w } rest rfl
      (fun l2 h2 => hall l2 (List.mem_cons_of_mem _ h2))
    exact ⟨w2, hw2⟩

/-- A header block with one positive Content-Length line, closed by a blank
line: the header step stops right after the blank line with `content_length`
set; the body step then hands over the declared number of characters. -/
theorem read_header_block (pre post : List Text) (n : Nat) (rest : Text) (c : Connection)
    (hin : c.in_stream = header_block pre ++ ("Content-Length: ".toList ++ QString_number n)
      ++ "\r\n".toList ++ header_block post ++ "\r\n".toList ++ rest)
    (hother : ∀ l ∈ pre ++ post, other_header_line l) (hpos : 0 < n) (hlt : n < 2 ^ 31) :
    ∃ w, read_header c = { c with
      in_stream := rest, packet_state := PACKET_EXPECT.BODY,
      header := { content_length := n }, warnings := w } := by
  have hn : '\n' ∉ "Content-Length: ".toList ++ QString_number n := by
    simp only [List.mem_append, not_or]
    exact ⟨by decide, fun e => (isdigit_not_special _ (QString_number_digits n _ e)).2.2.2.1 rfl⟩
  have hb : is_strip_empty ("Content-Length: ".toList ++ QString_number n) = false := by
    simp [is_strip_empty, isspace]
  obtain ⟨w1, h1⟩ := read_header_other_lines pre c
    (("Content-Length: ".toList ++ QString_number n) ++ '\r' :: '\n' ::
      (header_block post ++ '\r' :: '\n' :: rest))
    (by rw [hin]; simp) (fun l h => hother l (List.mem_append_left _ h))
  rw [h1, read_header_line_step _ _ _ rfl hn hb, header_field_content_length _ n hpos hlt]
  obtain ⟨w2, h2⟩ := read_header_other_lines post
    { c with in_stream := header_block post ++ '\r' :: '\n' :: rest, warnings := w1,
             header := { content_length := n } }
    ('\r' :: '\n' :: rest) rfl (fun l h => hother l (List.mem_append_right _ h))
  refine ⟨w2, ?_⟩
  rw [h2]
  exact read_header_blank_step _ [] rest rfl (by simp) rfl

/-- The decimal representation `Nat.repr` is the one of `QString_number`. -/
theorem repr_toList (n : Nat) : (Nat.repr n).toList = QString_number n := rfl

theorem repr_data (n : Nat) : (Nat.repr n).data = QString_number n := rfl

theorem header_block_append (xs ys : List Text) :
    header_block (xs ++ ys) = header_block xs ++ header_block ys := by
  induction xs with
  | nil => rfl
  | cons x xs ih => simp [header_block, ih]

/-- Within the range of a positive `int` the count of `read` is taken as it
is. -/
theorem read_in_range (s : Text) (n : Nat) (hpos : 0 < n) (hlt : n < 2 ^ 31) :
    read s n = (s.take n, s.drop n) := by
  have h64 : toInt64 n = (n : Int) := by
    unfold toInt64
    norm_num at hlt ⊢
    omega
  have h32 : toInt32 (n : Int) = (n : Int) := by
    unfold toInt32
    norm_num at hlt ⊢
    omega
  have hp : (0 : Int) < (n : Int) := by exact_mod_cast hpos
  simp only [read, h64, h32, hp, and_self, if_true, Int.toNat_ofNat]

/-- The body step when the declared number of characters is available. -/
theorem read_body_available (c : Connection) (b r : Text) (hin : c.in_stream = b ++ r)
    (hlen : c.header.content_length = b.length) (hpos : 0 < b.length)
    (hlt : b.length < 2 ^ 31) :
    read_body c = { c with
      in_stream := r, handled := c.handled ++ [b],
      packet_state := PACKET_EXPECT.HEADER, header := {} } := by
  have hb : b ≠ [] := List.ne_nil_of_length_pos hpos
  simp [read_body, hb, read_in_range _ _ hpos hlt, hin, hlen]

/-! ## Claims on framing -/

/-- C1: `send` appends to the output stream exactly "Content-Length: ", the
decimal length of the payload, "\r\n\r\n" and the payload, in this order and
nothing else; after a sequence of sends the output is the concatenation of
these frames in the order of the calls. -/
theorem send_appends_frame (c : Connection) (p : Text) (ps : List Text) :
    (send c p).out_stream
        = c.out_stream ++ ("Content-Length: ".toList ++ (Nat.repr p.length).toList
            ++ "\r\n\r\n".toList ++ p)
      ∧ (ps.foldl send c).out_stream
        = c.out_stream ++ (ps.map (fun q => "Content-Length: ".toList
            ++ (Nat.repr q.length).toList ++ "\r\n\r\n".toList ++ q)).flatten := by
  have one : ∀ (d : Connection) (q : Text), (send d q).out_stream
      = d.out_stream ++ ("Content-Length: ".toList ++ (Nat.repr q.length).toList
          ++ "\r\n\r\n".toList ++ q) := by
    intro d q
    simp [send, headerbuf, repr_data]
  refine ⟨one c p, ?_⟩
  induction ps generalizing c with
  | nil => simp
  | cons q ps ih =>
    rw [List.foldl_cons, ih (send c q), one c q]
    simp

/-- When the declared length is the number of characters of the body, as it
is for a body of ASCII characters, and is below `2 ^ 31`: a header block of
non-blank header lines, one of them the Content-Length line and the others
Content-Type or unknown lines, closed by a blank line and followed by the
body `b` and further input `r`, makes one header step and one body step call
the handler exactly once, with `b`, leave `r` unread, reset the header and
return to waiting for a header. -/
theorem header_block_delivers_body (pre post : List Text) (b r : Text) (c : Connection)
    (hstate : c.packet_state = PACKET_EXPECT.HEADER)
    (hin : c.in_stream
      = header_block (pre ++ ["Content-Length: ".toList ++ (Nat.repr b.length).toList] ++ post)
        ++ "\r\n".toList ++ b ++ r)
    (hother : ∀ l ∈ pre ++ post, other_header_line l)
    (hpos : 0 < b.length) (hlt : b.length < 2 ^ 31) :
    (onReadyRead (onReadyRead c)).handled = c.handled ++ [b]
      ∧ (onReadyRead (onReadyRead c)).in_stream = r
      ∧ (onReadyRead (onReadyRead c)).header = {}
      ∧ (onReadyRead (onReadyRead c)).packet_state = PACKET_EXPECT.HEADER
      ∧ (onReadyRead c).packet_state = PACKET_EXPECT.BODY := by
  have hin2 : c.in_stream = header_block pre ++ ("Content-Length: ".toList
      ++ QString_number b.length) ++ "\r\n".toList ++ header_block post ++ "\r\n".toList
      ++ (b ++ r) := by
    rw [hin]
    simp [header_block_append, header_block, repr_data]
  obtain ⟨w, hw⟩ := read_header_block pre post b.length (b ++ r) c hin2 hother hpos hlt
  have h1 : onReadyRead c = read_header c := by simp [onReadyRead, hstate]
  have h2 : (read_header c).packet_state = PACKET_EXPECT.BODY := by rw [hw]
  have h3 : onReadyRead (read_header c) = read_body (read_header c) := by
    simp [onReadyRead, h2]
  have hb := read_body_available (read_header c) b r (by rw [hw]) (by rw [hw]) hpos hlt
  rw [h1, h3, hb]
  refine ⟨?_, rfl, rfl, rfl, h2⟩
  rw [hw]

theorem header_block_delivers_body_witness :
    (onReadyRead (onReadyRead (idle scenario_input))).handled
        = (idle scenario_input).handled ++ ["\x7b\"id\":1,\"\":0\x7d".toList]
      ∧ (onReadyRead (onReadyRead (idle scenario_input))).in_stream = "Content-".toList
      ∧ (onReadyRead (onReadyRead (idle scenario_input))).header = {}
      ∧ (onReadyRead (onReadyRead (idle scenario_input))).packet_state = PACKET_EXPECT.HEADER
      ∧ (onReadyRead (idle scenario_input)).packet_state = PACKET_EXPECT.BODY :=
  header_block_delivers_body
    ["Content-Type: application/vscode-jsonrpc; charset=utf-8".toList] ["X-Trace: 1".toList]
    "\x7b\"id\":1,\"\":0\x7d".toList "Content-".toList (idle scenario_input)
    rfl (by decide) (by decide) (by decide) (by decide)

/-- For a declared number within the range of a positive `int`, the payload
that the body step hands over has as many characters as are declared or as
are available, whichever is less. -/
theorem read_body_payload_length (c : Connection) (h : c.header.content_length ≠ 0)
    (hlt : c.header.content_length < 2 ^ 31) :
    (read_body c).handled
        = c.handled ++ [c.in_stream.take c.header.content_length]
      ∧ (c.in_stream.take c.header.content_length).length
        = min c.header.content_length c.in_stream.length := by
  simp [read_body, h, read_in_range _ _ (Nat.pos_of_ne_zero h) hlt]

/-- C4 (failing input): with `content_length` 5 and only "abc" available, the
body step hands the three characters "abc" to the handler, empties the header
and returns to waiting for a header. -/
theorem read_body_short_read :
    (awaiting_body 5 "abc".toList).packet_state = PACKET_EXPECT.BODY
      ∧ (awaiting_body 5 "abc".toList).header.content_length = 5
      ∧ (onReadyRead (awaiting_body 5 "abc".toList)).handled = ["abc".toList]
      ∧ (onReadyRead (awaiting_body 5 "abc".toList)).packet_state = PACKET_EXPECT.HEADER
      ∧ (onReadyRead (awaiting_body 5 "abc".toList)).header = {}
      ∧ (onReadyRead (awaiting_body 5 "abc".toList)).in_stream = [] := by
  decide

/-- C5: in a state that waits for a body with `content_length` unset, the body
step takes nothing from the input, does not call the handler, leaves the
table of pending requests and the id counter as they are, and goes back to
waiting for a header with an empty header. -/
theorem read_body_without_length (c : Connection)
    (hstate : c.packet_state = PACKET_EXPECT.BODY) (hlen : c.header.content_length = 0) :
    onReadyRead c = read_body c
      ∧ (read_body c).in_stream = c.in_stream
      ∧ (read_body c).handled = c.handled
      ∧ (read_body c).pending_messages = c.pending_messages
      ∧ (read_body c).next_request_id = c.next_request_id
      ∧ (read_body c).packet_state = PACKET_EXPECT.HEADER
      ∧ (read_body c).header = {} := by
  have hh : c.header = {} := by
    cases hc : c.header with
    | mk n => rw [hc] at hlen; simp only at hlen; rw [hlen]
  refine ⟨by simp [onReadyRead, hstate], ?_⟩
  simp [read_body, hlen, hh]

theorem read_body_without_length_witness :
    onReadyRead (awaiting_body 0 "abc".toList) = read_body (awaiting_body 0 "abc".toList)
      ∧ (read_body (awaiting_body 0 "abc".toList)).in_stream
        = (awaiting_body 0 "abc".toList).in_stream
      ∧ (read_body (awaiting_body 0 "abc".toList)).handled
        = (awaiting_body 0 "abc".toList).handled
      ∧ (read_body (awaiting_body 0 "abc".toList)).pending_messages
        = (awaiting_body 0 "abc".toList).pending_messages
      ∧ (read_body (awaiting_body 0 "abc".toList)).next_request_id
        = (awaiting_body 0 "abc".toList).next_request_id
      ∧ (read_body (awaiting_body 0 "abc".toList)).packet_state = PACKET_EXPECT.HEADER
      ∧ (read_body (awaiting_body 0 "abc".toList)).header = {} :=
  read_body_without_length (awaiting_body 0 "abc".toList) rfl rfl

/-- A Content-Length line that declares 0 changes nothing. -/
theorem header_field_content_length_zero (c : Connection) :
    header_field c "Content-Length: 0".toList = c := by
  have h := read_header_line_content_length "0".toList (by decide)
  have e : "Content-Length: 0".toList = "Content-Length: ".toList ++ "0".toList := by decide
  have hz : to_size_t (atoi "0".toList) = 0 := by decide
  rw [e]
  simp only [header_field, h, hz]
  simp

/-- C6 (as stated, at "Content-Length: 0\r\n\r\n"): the header step leaves
`content_length` unset, and the body step does not call the handler: nothing
is handed over, in particular not one empty payload. -/
theorem zero_length_not_delivered :
    (onReadyRead (idle "Content-Length: 0\r\n\r\n".toList)).packet_state = PACKET_EXPECT.BODY
      ∧ (onReadyRead (idle "Content-Length: 0\r\n\r\n".toList)).header.content_length = 0
      ∧ (onReadyRead (onReadyRead (idle "Content-Length: 0\r\n\r\n".toList))).handled = []
      ∧ ¬ ((onReadyRead (onReadyRead (idle "Content-Length: 0\r\n\r\n".toList))).handled
            = (idle "Content-Length: 0\r\n\r\n".toList).handled ++ [[]]) := by
  decide

/-- C6 (amended): when a header block whose Content-Length line declares 0 and
whose other lines are Content-Type or unknown lines, followed by the blank
line, is received by a connection that waits for a header with an empty
header, the header step leaves `content_length` unset and the body step reads
nothing and does not call the handler; the connection waits for a header
again, with the input after the blank line unread. -/
theorem zero_length_skips_handler (pre post : List Text) (r : Text) (c : Connection)
    (hstate : c.packet_state = PACKET_EXPECT.HEADER) (hhdr : c.header = {})
    (hin : c.in_stream
      = header_block (pre ++ ["Content-Length: 0".toList] ++ post) ++ "\r\n".toList ++ r)
    (hother : ∀ l ∈ pre ++ post, other_header_line l) :
    (onReadyRead c).packet_state = PACKET_EXPECT.BODY
      ∧ (onReadyRead c).header.content_length = 0
      ∧ (onReadyRead (onReadyRead c)).handled = c.handled
      ∧ (onReadyRead (onReadyRead c)).in_stream = r
      ∧ (onReadyRead (onReadyRead c)).header = {}
      ∧ (onReadyRead (onReadyRead c)).packet_state = PACKET_EXPECT.HEADER := by
  obtain ⟨w1, h1⟩ := read_header_other_lines pre c
    ("Content-Length: 0".toList ++ '\r' :: '\n' :: (header_block post ++ '\r' :: '\n' :: r))
    (by rw [hin]; simp [header_block_append, header_block])
    (fun l h => hother l (List.mem_append_left _ h))
  obtain ⟨w2, h2⟩ := read_header_other_lines post
    { c with in_stream := header_block post ++ '\r' :: '\n' :: r, warnings := w1 }
    ('\r' :: '\n' :: r) rfl (fun l h => hother l (List.mem_append_right _ h))
  have hr : read_header c = { c with
      in_stream := r, packet_state := PACKET_EXPECT.BODY, warnings := w2 } := by
    rw [h1, read_header_line_step _ _ _ rfl (by decide) (by decide),
      header_field_content_length_zero, h2]
    exact read_header_blank_step _ [] r rfl (by simp) rfl
  have e1 : onReadyRead c = read_header c := by simp [onReadyRead, hstate]
  rw [e1, hr]
  simp [onReadyRead, read_body, hhdr]

theorem zero_length_skips_handler_witness :
    (onReadyRead (idle "X-A: b\r\nContent-Length: 0\r\n\r\nrest".toList)).packet_state
        = PACKET_EXPECT.BODY
      ∧ (onReadyRead (idle "X-A: b\r\nContent-Length: 0\r\n\r\nrest".toList)).header.content_length
        = 0
      ∧ (onReadyRead (onReadyRead (idle "X-A: b\r\nContent-Length: 0\r\n\r\nrest".toList))).handled
        = (idle "X-A: b\r\nContent-Length: 0\r\n\r\nrest".toList).handled
      ∧ (onReadyRead (onReadyRead (idle "X-A: b\r\nContent-Length: 0\r\n\r\nrest".toList))).in_stream
        = "rest".toList
      ∧ (onReadyRead (onReadyRead (idle "X-A: b\r\nContent-Length: 0\r\n\r\nrest".toList))).header
        = {}
      ∧ (onReadyRead (onReadyRead
          (idle "X-A: b\r\nContent-Length: 0\r\n\r\nrest".toList))).packet_state
        = PACKET_EXPECT.HEADER :=
  zero_length_skips_handler ["X-A: b".toList] [] "rest".toList
    (idle "X-A: b\r\nContent-Length: 0\r\n\r\nrest".toList) rfl rfl (by decide) (by decide)

/-- C7 (failing input): the line "Content-Length: -5" is not ignored.  The
value `-5` of `atoi` is stored in the unsigned `l`, which makes it
`2 ^ 64 - 5`; the test `l > 0` passes and `content_length` is assigned, here
from unset.  The lines "Content-Length: 0" and "Content-Length: abc" leave it
unset. -/
theorem negative_length_is_stored :
    (idle "Content-Length: -5\r\n".toList).header.content_length = 0
      ∧ atoi "-5".toList = -5
      ∧ (read_header (idle "Content-Length: -5\r\n".toList)).header.content_length
        = 18446744073709551611
      ∧ (read_header (idle "Content-Length: 0\r\n".toList)).header.content_length = 0
      ∧ (read_header (idle "Content-Length: abc\r\n".toList)).header.content_length = 0 := by
  decide

/-- A Content-Length line whose value `atoi` reads as 0 changes nothing. -/
theorem header_field_content_length_ignored (c : Connection) (v : Text) (hv : '\n' ∉ v)
    (h0 : atoi v = 0) : header_field c ("Content-Length: ".toList ++ v) = c := by
  simp only [header_field, read_header_line_content_length v hv, h0, to_size_t]
  simp

/-! ## The table of pending requests -/

theorem map_find_none_iff (m : pending_map) (k : Int) :
    map_find m k = none ↔ k ∉ map_keys m := by
  induction m with
  | nil => simp [map_find, map_keys]
  | cons e m ih =>
    obtain ⟨k2, v⟩ := e
    by_cases hk : k2 = k
    · simp [map_find, map_keys, hk]
    · have hk2 : ¬ k = k2 := fun e => hk e.symm
      simp only [map_find, hk, if_false, ih]
      simp [map_keys, hk2]

theorem map_find_insert (m : pending_map) (k : Int) (v : pending_message)
    (h : map_find m k = none) : map_find (map_insert m k v) k = some v := by
  induction m with
  | nil => simp [map_insert, map_find]
  | cons e m ih =>
    obtain ⟨k2, v2⟩ := e
    by_cases hk : k2 = k
    · simp [map_find, hk] at h
    · simp only [map_find, hk, if_false] at h
      by_cases hlt : k < k2
      · simp [map_insert, hlt, map_find]
      · simp [map_insert, hlt, map_find, hk, ih h]

theorem map_erase_insert (m : pending_map) (k : Int) (v : pending_message)
    (h : map_find m k = none) : map_erase (map_insert m k v) k = m := by
  induction m with
  | nil => simp [map_insert, map_erase]
  | cons e m ih =>
    obtain ⟨k2, v2⟩ := e
    by_cases hk : k2 = k
    · simp [map_find, hk] at h
    · simp only [map_find, hk, if_false] at h
      by_cases hlt : k < k2
      · simp [map_insert, hlt, map_erase]
      · simp [map_insert, hlt, map_erase, hk, ih h]

/-- A new key is stored by `emplace` and found afterwards. -/
theorem map_find_emplace (m : pending_map) (k : Int) (v : pending_message)
    (h : map_find m k = none) : map_find (map_emplace m k v) k = some v := by
  simp [map_emplace, h, map_find_insert m k v h]

/-- Erasing a key that `emplace` has just added gives the container back. -/
theorem map_erase_emplace (m : pending_map) (k : Int) (v : pending_message)
    (h : map_find m k = none) : map_erase (map_emplace m k v) k = m := by
  simp [map_emplace, h, map_erase_insert m k v h]

/-- The method `emplace` leaves the container as it is when the key is
present. -/
theorem map_emplace_present (m : pending_map) (k : Int) (v : pending_message)
    (h : map_find m k ≠ none) : map_emplace m k v = m := by
  cases hf : map_find m k with
  | none => exact absurd hf h
  | some e => simp [map_emplace, hf]

/-! ## Claims on the correlation of requests and responses -/

/-- C8 (as stated, at a state where the counter value is a pending key): after
a request with the explicit id 0 and callback 7, the counter still stands at 0;
a request without an explicit id and with callback 9 is assigned the id 0, and
`emplace` keeps the entry that is there.  The response with id 0 calls callback
7, not callback 9. -/
theorem auto_id_collision_calls_other_callback :
    explicit_zero_pending.pending_messages = [(0, ⟨7, 0⟩)]
      ∧ explicit_zero_pending.next_request_id = 0
      ∧ (send_RequestMessage plain_store 1 explicit_zero_pending
          { id := auto_id, method := "b".toList, content := [] } [] {} 9).2.id = int_id 0
      ∧ (handle_pending_response
          (send_RequestMessage plain_store 1 explicit_zero_pending
            { id := auto_id, method := "b".toList, content := [] } [] {} 9).1
          { id := int_id 0, content := "ok".toList }).invoked
        = [(7, { id := int_id 0, content := "ok".toList })]
      ∧ ¬ ((handle_pending_response
          (send_RequestMessage plain_store 1 explicit_zero_pending
            { id := auto_id, method := "b".toList, content := [] } [] {} 9).1
          { id := int_id 0, content := "ok".toList }).invoked
        = explicit_zero_pending.invoked ++ [(9, { id := int_id 0, content := "ok".toList })]) := by
  decide

/-- C8 (amended): for a request sent without an explicit id (the
auto-increment placeholder, in the message or as the fallback of a message
without id) with callback `callback`, provided the value of the counter is not
already a key of the table: the request gets that value as its integer id and
is stored under it; a response with this id calls `callback` exactly once,
with that response, and removes the entry; a second response with the same id
calls nothing and leaves the table as it is. -/
theorem auto_id_response_calls_callback_once (store : RequestMessage → Text) (now : Int)
    (c : Connection) (msg : RequestMessage) (method : Text) (id : RequestId)
    (callback : request_callback_t) (resp resp2 : ResponseMessage)
    (sent : Connection × RequestMessage) (c1 c2 : Connection)
    (hauto : msg.id.type = IdType.AUTO_INCREMENT
      ∨ (msg.id.type = IdType.UNSET ∧ id.type = IdType.AUTO_INCREMENT))
    (hfresh : c.next_request_id ∉ map_keys c.pending_messages)
    (hresp : resp.id.type = IdType.INT ∧ resp.id.value_int = c.next_request_id)
    (hresp2 : resp2.id.type = IdType.INT ∧ resp2.id.value_int = c.next_request_id)
    (hsent : sent = send_RequestMessage store now c msg method id callback)
    (hc1 : c1 = handle_pending_response sent.1 resp)
    (hc2 : c2 = handle_pending_response c1 resp2) :
    sent.2.id.type = IdType.INT ∧ sent.2.id.value_int = c.next_request_id
      ∧ map_find sent.1.pending_messages c.next_request_id = some ⟨callback, now⟩
      ∧ sent.1.invoked = c.invoked
      ∧ c1.invoked = c.invoked ++ [(callback, resp)]
      ∧ map_find c1.pending_messages c.next_request_id = none
      ∧ c1.pending_messages = c.pending_messages
      ∧ c2.invoked = c1.invoked
      ∧ c2.pending_messages = c1.pending_messages := by
  have hnone : map_find c.pending_messages c.next_request_id = none :=
    (map_find_none_iff _ _).mpr hfresh
  have hs1 : sent.1 = send
      { c with next_request_id := c.next_request_id + 1,
               pending_messages := map_emplace c.pending_messages c.next_request_id
                 ⟨callback, now⟩ } (store sent.2) := by
    rw [hsent]
    rcases hauto with h | ⟨h, h2⟩
    · by_cases hm : msg.method = [] <;> simp [send_RequestMessage, RequestId.is_set, h, hm]
    · by_cases hm : msg.method = [] <;>
        simp [send_RequestMessage, RequestId.is_set, h, h2, hm]
  have hs2 : sent.2.id.type = IdType.INT ∧ sent.2.id.value_int = c.next_request_id := by
    rw [hsent]
    rcases hauto with h | ⟨h, h2⟩
    · by_cases hm : msg.method = [] <;> simp [send_RequestMessage, RequestId.is_set, h, hm]
    · by_cases hm : msg.method = [] <;>
        simp [send_RequestMessage, RequestId.is_set, h, h2, hm]
  have hp : sent.1.pending_messages
      = map_emplace c.pending_messages c.next_request_id ⟨callback, now⟩ := by
    rw [hs1]; rfl
  have hi : sent.1.invoked = c.invoked := by rw [hs1]; rfl
  have hfind := map_find_emplace c.pending_messages c.next_request_id ⟨callback, now⟩ hnone
  have herase := map_erase_emplace c.pending_messages c.next_request_id ⟨callback, now⟩ hnone
  have h1 : c1 = { sent.1 with
      invoked := c.invoked ++ [(callback, resp)], pending_messages := c.pending_messages } := by
    rw [hc1]
    simp [handle_pending_response, hresp.1, hresp.2, hp, hfind, herase, hi]
  have h1p : c1.pending_messages = c.pending_messages := by rw [h1]
  have h2 : c2 = c1 := by
    rw [hc2]
    simp [handle_pending_response, hresp2.1, hresp2.2, h1p, hnone]
  refine ⟨hs2.1, hs2.2, ?_, hi, ?_, ?_, h1p, ?_, ?_⟩
  · rw [hp]; exact hfind
  · rw [h1]
  · rw [h1p]; exact hnone
  · rw [h2]
  · rw [h2]

theorem auto_id_response_calls_callback_once_witness :
    auto_sent.2.id.type = IdType.INT ∧ auto_sent.2.id.value_int = (idle []).next_request_id
      ∧ map_find auto_sent.1.pending_messages (idle []).next_request_id = some ⟨9, 1⟩
      ∧ auto_sent.1.invoked = (idle []).invoked
      ∧ auto_answered.invoked
        = (idle []).invoked ++ [(9, { id := int_id 0, content := "ok".toList })]
      ∧ map_find auto_answered.pending_messages (idle []).next_request_id = none
      ∧ auto_answered.pending_messages = (idle []).pending_messages
      ∧ auto_answered_twice.invoked = auto_answered.invoked
      ∧ auto_answered_twice.pending_messages = auto_answered.pending_messages :=
  auto_id_response_calls_callback_once plain_store 1 (idle []) auto_request [] {} 9
    { id := int_id 0, content := "ok".toList } { id := int_id 0, content := "again".toList }
    auto_sent auto_answered auto_answered_twice
    (Or.inl rfl) (by decide) ⟨rfl, rfl⟩ ⟨rfl, rfl⟩ rfl rfl rfl

/-- C9: a response whose id is not integer-typed, or whose integer id is not a
key of the table, calls no callback and leaves the table (keys, callbacks and
time stamps) as it is; the whole state of the connection is unchanged. -/
theorem unmatched_response_is_dropped (c : Connection) (resp : ResponseMessage)
    (h : resp.id.type ≠ IdType.INT ∨ resp.id.value_int ∉ map_keys c.pending_messages) :
    (handle_pending_response c resp).invoked = c.invoked
      ∧ (handle_pending_response c resp).pending_messages = c.pending_messages
      ∧ handle_pending_response c resp = c := by
  have e : handle_pending_response c resp = c := by
    by_cases ht : resp.id.type = IdType.INT
    · rcases h with h | h
      · exact absurd ht h
      · have hn := (map_find_none_iff c.pending_messages resp.id.value_int).mpr h
        simp [handle_pending_response, ht, hn]
    · simp [handle_pending_response, ht]
  rw [e]
  exact ⟨rfl, rfl, rfl⟩

theorem unmatched_response_is_dropped_witness :
    (handle_pending_response explicit_zero_pending
        { id := int_id 4, content := "ok".toList }).invoked = explicit_zero_pending.invoked
      ∧ (handle_pending_response explicit_zero_pending
        { id := int_id 4, content := "ok".toList }).pending_messages
        = explicit_zero_pending.pending_messages
      ∧ handle_pending_response explicit_zero_pending
        { id := int_id 4, content := "ok".toList } = explicit_zero_pending :=
  unmatched_response_is_dropped explicit_zero_pending
    { id := int_id 4, content := "ok".toList } (Or.inr (by decide))

/-- A request whose final id is unset is transmitted and registers nothing. -/
theorem send_request_unset_id (store : RequestMessage → Text) (now : Int) (c : Connection)
    (msg : RequestMessage) (method : Text) (id : RequestId) (callback : request_callback_t)
    (hmsg : msg.id.type = IdType.UNSET) (hid : id.type = IdType.UNSET) :
    (send_RequestMessage store now c msg method id callback).1
      = send c (store (send_RequestMessage store now c msg method id callback).2) := by
  by_cases hm : msg.method = [] <;>
    simp [send_RequestMessage, RequestId.is_set, hmsg, hid, hm]

/-- C10 (failing input): a request with the string id "abc", sent with callback
9 at time 5 on a connection with nothing pending.  The final id is the string
id, the frame is written, and an entry is registered all the same, under the
`value_int` of the id (0): the table is not unchanged.  A later response with
the integer id 0 calls callback 9. -/
theorem string_id_request_is_registered :
    (send_RequestMessage plain_store 5 (idle [])
        { id := string_id "abc".toList, method := "m".toList, content := [] } [] {} 9).2.id
        = string_id "abc".toList
      ∧ (send_RequestMessage plain_store 5 (idle [])
        { id := string_id "abc".toList, method := "m".toList, content := [] } [] {} 9).1.out_stream
        = "Content-Length: 2\r\n\r\nm ".toList
      ∧ (idle []).pending_messages = []
      ∧ (send_RequestMessage plain_store 5 (idle [])
        { id := string_id "abc".toList, method := "m".toList, content := [] } [] {} 9
          ).1.pending_messages = [(0, ⟨9, 5⟩)]
      ∧ (handle_pending_response
          (send_RequestMessage plain_store 5 (idle [])
            { id := string_id "abc".toList, method := "m".toList, content := [] } [] {} 9).1
          { id := int_id 0, content := [] }).invoked = [(9, { id := int_id 0, content := [] })] := by
  decide

/-! ## Claims on the id counter -/

/-- A request without an explicit id: the message gets the counter value as
its integer id, the counter grows by one, and the entry is given to `emplace`
under that id. -/
theorem send_auto_request (store : RequestMessage → Text) (now : Int) (c : Connection)
    (msg : RequestMessage) (method : Text) (id : RequestId) (callback : request_callback_t)
    (hauto : is_auto_call msg id) :
    (send_RequestMessage store now c msg method id callback).2.id.type = IdType.INT
      ∧ (send_RequestMessage store now c msg method id callback).2.id.value_int
        = c.next_request_id
      ∧ (send_RequestMessage store now c msg method id callback).1.next_request_id
        = c.next_request_id + 1
      ∧ (send_RequestMessage store now c msg method id callback).1.pending_messages
        = map_emplace c.pending_messages c.next_request_id ⟨callback, now⟩ := by
  rcases hauto with h | ⟨h, h2⟩
  · by_cases hm : msg.method = [] <;>
      simp [send_RequestMessage, RequestId.is_set, h, hm, send]
  · by_cases hm : msg.method = [] <;>
      simp [send_RequestMessage, RequestId.is_set, h, h2, hm, send]

theorem send_all_auto (store : RequestMessage → Text) (calls : List request_call) :
    ∀ c : Connection, (∀ r ∈ calls, is_auto_call r.msg r.id) →
      (send_all store c calls).2.map (fun m => m.id.value_int)
          = (List.range calls.length).map (fun (i : Nat) => c.next_request_id + (i : Int))
        ∧ (∀ m ∈ (send_all store c calls).2, m.id.type = IdType.INT)
        ∧ (send_all store c calls).1.next_request_id = c.next_request_id + calls.length := by
  induction calls with
  | nil => intro c _; simp [send_all]
  | cons r rs ih =>
    intro c h
    obtain ⟨h1, h2, h3, -⟩ :=
      send_auto_request store r.now c r.msg r.method r.id r.callback (h r (List.mem_cons_self _ _))
    obtain ⟨i1, i2, i3⟩ :=
      ih (send_RequestMessage store r.now c r.msg r.method r.id r.callback).1
        (fun r2 hr => h r2 (List.mem_cons_of_mem _ hr))
    refine ⟨?_, ?_, ?_⟩
    · simp only [send_all, List.map_cons, List.length_cons, List.range_succ_eq_map, i1, h2, h3,
        List.map_map]
      simp only [Nat.cast_zero, add_zero, List.cons.injEq, true_and]
      apply List.map_congr_left
      intro i _
      simp only [Function.comp_apply, Nat.cast_succ]
      ring
    · intro m hm
      simp only [send_all, List.mem_cons] at hm
      rcases hm with hm | hm
      · rw [hm]; exact h1
      · exact i2 m hm
    · simp only [send_all, i3, h3, List.length_cons, Nat.cast_succ]
      ring

/-- C11: for every number of calls and every starting value of the counter,
successive requests without an explicit id are given integer ids that are the
counter values `next_request_id`, `next_request_id + 1`, ... in call order,
hence strictly increasing and pairwise distinct, and the counter grows by one
with each call. -/
theorem auto_ids_strictly_increase (store : RequestMessage → Text) (c : Connection)
    (calls : List request_call) (hauto : ∀ r ∈ calls, is_auto_call r.msg r.id) :
    (send_all store c calls).2.length = calls.length
      ∧ (∀ m ∈ (send_all store c calls).2, m.id.type = IdType.INT)
      ∧ (send_all store c calls).2.map (fun m => m.id.value_int)
        = (List.range calls.length).map (fun (i : Nat) => c.next_request_id + (i : Int))
      ∧ ((send_all store c calls).2.map (fun m => m.id.value_int)).Pairwise (fun a b => a < b)
      ∧ ((send_all store c calls).2.map (fun m => m.id.value_int)).Nodup
      ∧ (send_all store c calls).1.next_request_id = c.next_request_id + calls.length := by
  obtain ⟨h1, h2, h3⟩ := send_all_auto store calls c hauto
  have hp : ((List.range calls.length).map
      (fun (i : Nat) => c.next_request_id + (i : Int))).Pairwise (fun a b => a < b) := by
    rw [List.pairwise_map]
    exact (List.pairwise_lt_range calls.length).imp (fun hab => by simpa using hab)
  refine ⟨?_, h2, h1, ?_, ?_, h3⟩
  · have := congrArg List.length h1
    simpa using this
  · rw [h1]; exact hp
  · rw [h1]; exact hp.imp (fun hab => ne_of_lt hab)

theorem auto_ids_strictly_increase_witness :
    (send_all plain_store (idle []) three_auto_calls).2.length = three_auto_calls.length
      ∧ (∀ m ∈ (send_all plain_store (idle []) three_auto_calls).2, m.id.type = IdType.INT)
      ∧ (send_all plain_store (idle []) three_auto_calls).2.map (fun m => m.id.value_int)
        = (List.range three_auto_calls.length).map
            (fun (i : Nat) => (idle []).next_request_id + (i : Int))
      ∧ ((send_all plain_store (idle []) three_auto_calls).2.map
          (fun m => m.id.value_int)).Pairwise (fun a b => a < b)
      ∧ ((send_all plain_store (idle []) three_auto_calls).2.map
          (fun m => m.id.value_int)).Nodup
      ∧ (send_all plain_store (idle []) three_auto_calls).1.next_request_id
        = (idle []).next_request_id + three_auto_calls.length :=
  auto_ids_strictly_increase plain_store (idle []) three_auto_calls (by decide)

theorem map_keys_insert (m : pending_map) (k : Int) (v : pending_message) (j : Int)
    (h : j ∈ map_keys (map_insert m k v)) : j = k ∨ j ∈ map_keys m := by
  induction m with
  | nil => left; simpa [map_insert, map_keys] using h
  | cons e m ih =>
    obtain ⟨k2, v2⟩ := e
    by_cases hlt : k < k2
    · simp only [map_insert, hlt, if_true, map_keys, List.map_cons, List.mem_cons] at h
      rcases h with h | h | h
      · left; exact h
      · right; simp [map_keys, h]
      · right; simp only [map_keys, List.map_cons, List.mem_cons]; right; exact h
    · simp only [map_insert, hlt, if_false, map_keys, List.map_cons, List.mem_cons] at h
      rcases h with h | h
      · right; simp [map_keys, h]
      · rcases ih h with h2 | h2
        · left; exact h2
        · right; simp only [map_keys, List.map_cons, List.mem_cons]; right; exact h2

theorem map_keys_emplace (m : pending_map) (k : Int) (v : pending_message) (j : Int)
    (h : j ∈ map_keys (map_emplace m k v)) : j = k ∨ j ∈ map_keys m := by
  cases hf : map_find m k with
  | none =>
    simp only [map_emplace, hf] at h
    exact map_keys_insert m k v j h
  | some e =>
    simp only [map_emplace, hf] at h
    right; exact h

theorem map_keys_erase (m : pending_map) (k j : Int) (h : j ∈ map_keys (map_erase m k)) :
    j ∈ map_keys m := by
  induction m with
  | nil => simpa [map_erase] using h
  | cons e m ih =>
    obtain ⟨k2, v2⟩ := e
    by_cases hk : k2 = k
    · simp only [map_erase, hk, if_true] at h
      simp only [map_keys, List.map_cons, List.mem_cons]; right; exact h
    · simp only [map_erase, hk, if_false, map_keys, List.map_cons, List.mem_cons] at h
      simp only [map_keys, List.map_cons, List.mem_cons]
      rcases h with h | h
      · left; exact h
      · right; exact ih h

/-- The loop of `clean_pending_messages` keeps the entries that are not older
than `max_age`, in their order. -/
theorem clean_loop_filter (now max_age : Int) (m : pending_map) :
    (clean_loop now max_age m).1
      = m.filter (fun e => decide (¬ (now - e.2.pending_since > max_age))) := by
  induction m with
  | nil => rfl
  | cons e m ih =>
    obtain ⟨k, v⟩ := e
    by_cases h : now - v.pending_since > max_age
    · rw [List.filter_cons_of_neg (by simp only [decide_eq_true_eq]; exact fun hn => hn h)]
      simp only [clean_loop, h, if_true]
      exact ih
    · rw [List.filter_cons_of_pos (by simp only [decide_eq_true_eq]; exact h)]
      simp only [clean_loop, h, if_false]
      rw [ih]

theorem map_keys_clean (now max_age : Int) (m : pending_map) (j : Int)
    (h : j ∈ map_keys (clean_loop now max_age m).1) : j ∈ map_keys m := by
  rw [clean_loop_filter] at h
  simp only [map_keys, List.mem_map] at h ⊢
  obtain ⟨e, he, hj⟩ := h
  exact ⟨e, List.mem_of_mem_filter he, hj⟩

/-- What `send` for a request does to the counter and to the table, by the
id that the request carries. -/
theorem send_request_effect (store : RequestMessage → Text) (now : Int) (c : Connection)
    (msg : RequestMessage) (method : Text) (id : RequestId) (callback : request_callback_t) :
    ((request_id_of msg id).type = IdType.AUTO_INCREMENT →
        (send_RequestMessage store now c msg method id callback).1.next_request_id
          = c.next_request_id + 1
        ∧ (send_RequestMessage store now c msg method id callback).1.pending_messages
          = map_emplace c.pending_messages c.next_request_id ⟨callback, now⟩)
      ∧ ((request_id_of msg id).type = IdType.UNSET →
        (send_RequestMessage store now c msg method id callback).1.next_request_id
          = c.next_request_id
        ∧ (send_RequestMessage store now c msg method id callback).1.pending_messages
          = c.pending_messages)
      ∧ ((request_id_of msg id).type ≠ IdType.AUTO_INCREMENT →
        (request_id_of msg id).type ≠ IdType.UNSET →
        (send_RequestMessage store now c msg method id callback).1.next_request_id
          = c.next_request_id
        ∧ (send_RequestMessage store now c msg method id callback).1.pending_messages
          = map_emplace c.pending_messages (request_id_of msg id).value_int
              ⟨callback, now⟩) := by
  by_cases hs : msg.id.type = IdType.UNSET <;> by_cases hm : msg.method = [] <;>
    refine ⟨fun h => ?_, fun h => ?_, fun h h2 => ?_⟩ <;>
    simp [request_id_of, RequestId.is_set, hs] at h <;>
    simp_all [send_RequestMessage, request_id_of, RequestId.is_set, send]

/-- Requests that `id_below_counter` admits, responses and sweeps keep every
key of the table below the counter. -/
theorem keys_below_counter (store : RequestMessage → Text) (c : Connection)
    (h : reachable_with store id_below_counter c) :
    ∀ k ∈ map_keys c.pending_messages, k < c.next_request_id := by
  induction h with
  | start c h0 => intro k hk; simp [h0, map_keys] at hk
  | request c now msg method id callback _ hallowed ih =>
    intro k hk
    obtain ⟨e1, e2, e3⟩ := send_request_effect store now c msg method id callback
    by_cases ha : (request_id_of msg id).type = IdType.AUTO_INCREMENT
    · obtain ⟨hn, hp⟩ := e1 ha
      rw [hp] at hk
      rw [hn]
      rcases map_keys_emplace _ _ _ _ hk with h1 | h1
      · omega
      · have := ih k h1; omega
    · by_cases hu : (request_id_of msg id).type = IdType.UNSET
      · obtain ⟨hn, hp⟩ := e2 hu
        rw [hp] at hk
        rw [hn]
        exact ih k hk
      · obtain ⟨hn, hp⟩ := e3 ha hu
        rw [hp] at hk
        rw [hn]
        rcases map_keys_emplace _ _ _ _ hk with h1 | h1
        · rcases hallowed with h2 | h2 | h2
          · exact absurd h2 ha
          · exact absurd h2 hu
          · rw [h1]; exact h2
        · exact ih k h1
  | response c msg _ ih =>
    intro k hk
    by_cases ht : msg.id.type = IdType.INT
    · cases hf : map_find c.pending_messages msg.id.value_int with
      | none =>
        simp only [handle_pending_response, ht, hf] at hk ⊢
        exact ih k (by simpa using hk)
      | some e =>
        simp only [handle_pending_response, ht, hf] at hk ⊢
        simp only [ne_eq, not_true_eq_false, if_false] at hk ⊢
        exact ih k (map_keys_erase _ _ _ hk)
    · simp only [handle_pending_response, ne_eq, ht, not_false_eq_true, if_true] at hk ⊢
      exact ih k hk
  | sweep c now max_age _ ih =>
    intro k hk
    exact ih k (map_keys_clean now max_age _ _ hk)

/-- C12 (as stated, at a state reached by one request with an explicit id):
the state in which the request with the explicit id 0 is pending is reached
from a connection with an empty table by one call of `send`; the counter
stands at 0 there, so the next request without an explicit id is assigned the
id 0, which is a key of the table. -/
theorem auto_id_can_be_outstanding :
    reachable_with plain_store any_request explicit_zero_pending
      ∧ is_auto_call auto_request {}
      ∧ (send_RequestMessage plain_store 1 explicit_zero_pending auto_request [] {} 9).2.id
        = int_id 0
      ∧ (send_RequestMessage plain_store 1 explicit_zero_pending auto_request [] {} 9
          ).2.id.value_int ∈ map_keys explicit_zero_pending.pending_messages := by
  refine ⟨?_, by decide, by decide, by decide⟩
  exact reachable_with.request (idle []) 0
    { id := int_id 0, method := "a".toList, content := [] } [] {} 7
    (reachable_with.start _ rfl) trivial

/-- C12 (amended): in every state reached from a connection with an empty
table by requests that leave the id to the counter, carry no id, or carry an
id whose `value_int` is below the counter, by responses and by sweeps, every
key of the table is below the counter; the id that `send` assigns from the
counter is therefore different from every outstanding id. -/
theorem auto_id_not_outstanding (store : RequestMessage → Text) (c : Connection) (now : Int)
    (msg : RequestMessage) (method : Text) (id : RequestId) (callback : request_callback_t)
    (hreach : reachable_with store id_below_counter c) (hauto : is_auto_call msg id) :
    (send_RequestMessage store now c msg method id callback).2.id.type = IdType.INT
      ∧ (send_RequestMessage store now c msg method id callback).2.id.value_int
        = c.next_request_id
      ∧ (send_RequestMessage store now c msg method id callback).2.id.value_int
        ∉ map_keys c.pending_messages
      ∧ ∀ k ∈ map_keys c.pending_messages, k < c.next_request_id := by
  obtain ⟨h1, h2, -, -⟩ := send_auto_request store now c msg method id callback hauto
  have hinv := keys_below_counter store c hreach
  refine ⟨h1, h2, ?_, hinv⟩
  rw [h2]
  intro hk
  exact lt_irrefl _ (hinv _ hk)

theorem auto_id_not_outstanding_witness :
    (send_RequestMessage plain_store 11 swept_state auto_request [] {} 8).2.id.type
        = IdType.INT
      ∧ (send_RequestMessage plain_store 11 swept_state auto_request [] {} 8).2.id.value_int
        = swept_state.next_request_id
      ∧ (send_RequestMessage plain_store 11 swept_state auto_request [] {} 8).2.id.value_int
        ∉ map_keys swept_state.pending_messages
      ∧ ∀ k ∈ map_keys swept_state.pending_messages, k < swept_state.next_request_id :=
  auto_id_not_outstanding plain_store swept_state 11 auto_request [] {} 8
    (reachable_with.sweep _ 10 100
      (reachable_with.response _ { id := int_id 5, content := [] }
        (reachable_with.request (idle []) 1 auto_request [] {} 9
          (reachable_with.start _ rfl) (by decide))))
    (by decide)

/-! ## Claims on the sweep of stale entries -/

theorem clean_loop_count (now max_age : Int) (m : pending_map) :
    (clean_loop now max_age m).2
        = (m.filter (fun e => decide (now - e.2.pending_since > max_age))).length
      ∧ (clean_loop now max_age m).2 + (clean_loop now max_age m).1.length = m.length := by
  induction m with
  | nil => simp [clean_loop]
  | cons e m ih =>
    obtain ⟨k, v⟩ := e
    obtain ⟨i1, i2⟩ := ih
    by_cases h : now - v.pending_since > max_age
    · rw [List.filter_cons_of_pos (by simp only [decide_eq_true_eq]; exact h)]
      simp only [clean_loop, h, if_true, List.length_cons, i1, true_and]
      omega
    · rw [List.filter_cons_of_neg (by simp only [decide_eq_true_eq]; exact h)]
      simp only [clean_loop, h, if_false, List.length_cons, i1, true_and]
      omega

/-- A table in which no entry is older than `max_age` is left as it is, with
the count 0. -/
theorem clean_loop_nothing_old (now max_age : Int) (m : pending_map)
    (h : ∀ e ∈ m, ¬ (now - e.2.pending_since > max_age)) :
    clean_loop now max_age m = (m, 0) := by
  induction m with
  | nil => rfl
  | cons e m ih =>
    obtain ⟨k, v⟩ := e
    have hv : ¬ (now - v.pending_since > max_age) := h (k, v) (List.mem_cons_self _ _)
    have hm := ih (fun e he => h e (List.mem_cons_of_mem _ he))
    simp only [clean_loop, hv, if_false, hm]

theorem map_wf_tail (e : Int × pending_message) (m : pending_map) (h : map_wf (e :: m)) :
    map_wf m ∧ ∀ j ∈ map_keys m, e.1 < j := by
  simp only [map_wf, map_keys, List.map_cons, List.pairwise_cons] at h
  exact ⟨h.2, h.1⟩

/-- In a container with unique keys, `find` returns the entry stored under the
key. -/
theorem map_find_eq_some_iff (m : pending_map) (hwf : map_wf m) (k : Int)
    (v : pending_message) : map_find m k = some v ↔ (k, v) ∈ m := by
  induction m with
  | nil => simp [map_find]
  | cons e m ih =>
    obtain ⟨k2, v2⟩ := e
    obtain ⟨hw, hlt⟩ := map_wf_tail _ _ hwf
    by_cases hk : k2 = k
    · subst hk
      simp only [map_find, if_true, Option.some.injEq, List.mem_cons, Prod.mk.injEq, true_and]
      constructor
      · intro h; left; exact h.symm
      · intro h
        rcases h with h | h
        · exact h.symm
        · exfalso
          have : k2 ∈ map_keys m := by
            simp only [map_keys, List.mem_map]
            exact ⟨(k2, v), h, rfl⟩
          exact lt_irrefl _ (hlt _ this)
    · have hk2 : ¬ k = k2 := fun e => hk e.symm
      simp only [map_find, hk, if_false, List.mem_cons, Prod.mk.injEq, hk2, false_and, false_or]
      exact ih hw

theorem map_wf_filter (m : pending_map) (p : Int × pending_message → Bool) (hwf : map_wf m) :
    map_wf (m.filter p) := by
  unfold map_wf map_keys at *
  rw [List.pairwise_map] at *
  exact hwf.sublist (List.filter_sublist m)

/-- C13: for every table, reading `now` of the clock and `max_age`,
`clean_pending_messages` removes all and only the entries with
`now - pending_since > max_age`: a key whose entry is older is absent
afterwards, a key whose entry is not older keeps its entry (callback and time
stamp), nothing else is in the table afterwards, and the count equals the
number of entries removed. -/
theorem clean_removes_exactly_stale (now max_age : Int) (c : Connection)
    (hwf : map_wf c.pending_messages) :
    (∀ k e, map_find c.pending_messages k = some e → now - e.pending_since > max_age →
        map_find (clean_pending_messages now max_age c).1.pending_messages k = none)
      ∧ (∀ k e, map_find c.pending_messages k = some e →
        ¬ (now - e.pending_since > max_age) →
        map_find (clean_pending_messages now max_age c).1.pending_messages k = some e)
      ∧ (∀ k e, map_find (clean_pending_messages now max_age c).1.pending_messages k = some e →
        map_find c.pending_messages k = some e ∧ ¬ (now - e.pending_since > max_age))
      ∧ (clean_pending_messages now max_age c).2
        = (c.pending_messages.filter
            (fun e => decide (now - e.2.pending_since > max_age))).length
      ∧ (clean_pending_messages now max_age c).2
          + (clean_pending_messages now max_age c).1.pending_messages.length
        = c.pending_messages.length := by
  have hR : (clean_pending_messages now max_age c).1.pending_messages
      = c.pending_messages.filter (fun e => decide (¬ (now - e.2.pending_since > max_age))) :=
    clean_loop_filter now max_age c.pending_messages
  have hwfR := map_wf_filter c.pending_messages
    (fun e => decide (¬ (now - e.2.pending_since > max_age))) hwf
  have h3 : ∀ k e,
      map_find (clean_pending_messages now max_age c).1.pending_messages k = some e →
      map_find c.pending_messages k = some e ∧ ¬ (now - e.pending_since > max_age) := by
    intro k e h
    rw [hR, map_find_eq_some_iff _ hwfR, List.mem_filter] at h
    refine ⟨(map_find_eq_some_iff _ hwf k e).mpr h.1, ?_⟩
    simpa using h.2
  refine ⟨?_, ?_, h3, (clean_loop_count now max_age c.pending_messages).1,
    (clean_loop_count now max_age c.pending_messages).2⟩
  · intro k e hf hold
    cases hr : map_find (clean_pending_messages now max_age c).1.pending_messages k with
    | none => rfl
    | some e2 =>
      obtain ⟨h1, h2⟩ := h3 k e2 hr
      rw [hf] at h1
      cases h1
      exact absurd hold h2
  · intro k e hf hyoung
    rw [hR, map_find_eq_some_iff _ hwfR, List.mem_filter]
    refine ⟨(map_find_eq_some_iff _ hwf k e).mp hf, ?_⟩
    simpa using hyoung

theorem clean_removes_exactly_stale_witness :
    (∀ k e, map_find aged_state.pending_messages k = some e → 60 - e.pending_since > 30 →
        map_find (clean_pending_messages 60 30 aged_state).1.pending_messages k = none)
      ∧ (∀ k e, map_find aged_state.pending_messages k = some e →
        ¬ (60 - e.pending_since > 30) →
        map_find (clean_pending_messages 60 30 aged_state).1.pending_messages k = some e)
      ∧ (∀ k e, map_find (clean_pending_messages 60 30 aged_state).1.pending_messages k = some e →
        map_find aged_state.pending_messages k = some e ∧ ¬ (60 - e.pending_since > 30))
      ∧ (clean_pending_messages 60 30 aged_state).2
        = (aged_state.pending_messages.filter
            (fun e => decide (60 - e.2.pending_since > 30))).length
      ∧ (clean_pending_messages 60 30 aged_state).2
          + (clean_pending_messages 60 30 aged_state).1.pending_messages.length
        = aged_state.pending_messages.length :=
  clean_removes_exactly_stale 60 30 aged_state (by decide)

/-- C14: running `clean_pending_messages` a second time with the same
`max_age` at the same reading of the clock removes nothing: the state is the
one after the first run and the second count is 0. -/
theorem clean_twice_removes_nothing (now max_age : Int) (c : Connection) :
    clean_pending_messages now max_age (clean_pending_messages now max_age c).1
        = ((clean_pending_messages now max_age c).1, 0)
      ∧ (clean_pending_messages now max_age
          (clean_pending_messages now max_age c).1).1.pending_messages
        = (clean_pending_messages now max_age c).1.pending_messages
      ∧ (clean_pending_messages now max_age (clean_pending_messages now max_age c).1).2 = 0 := by
  have hyoung : ∀ e ∈ (clean_loop now max_age c.pending_messages).1,
      ¬ (now - e.2.pending_since > max_age) := by
    intro e he
    rw [clean_loop_filter, List.mem_filter] at he
    simpa using he.2
  have h := clean_loop_nothing_old now max_age _ hyoung
  have e : clean_pending_messages now max_age (clean_pending_messages now max_age c).1
      = ((clean_pending_messages now max_age c).1, 0) := by
    simp only [clean_pending_messages, h]
  rw [e]
  exact ⟨rfl, rfl, rfl⟩

/-! ## Claims on sequences of messages and on responses that are sent -/

/-- One frame at the head of the input: the header step and the body step hand
over its body and leave the input after it. -/
theorem frame_two_steps (p rest : Text) (c : Connection)
    (hstate : c.packet_state = PACKET_EXPECT.HEADER) (hin : c.in_stream = frame p ++ rest)
    (hpos : 0 < p.length) (hlt : p.length < 2 ^ 31) :
    ∃ w, onReadyRead c = { c with
          in_stream := p ++ rest, packet_state := PACKET_EXPECT.BODY,
          header := { content_length := p.length }, warnings := w }
      ∧ onReadyRead (onReadyRead c) = { c with
          in_stream := rest, handled := c.handled ++ [p],
          packet_state := PACKET_EXPECT.HEADER, header := {}, warnings := w } := by
  have hin2 : c.in_stream = header_block [] ++ ("Content-Length: ".toList
      ++ QString_number p.length) ++ "\r\n".toList ++ header_block [] ++ "\r\n".toList
      ++ (p ++ rest) := by
    rw [hin]
    simp [frame, headerbuf, header_block]
  obtain ⟨w, hw⟩ := read_header_block [] [] p.length (p ++ rest) c hin2 (by simp) hpos hlt
  have h1 : onReadyRead c = read_header c := by simp [onReadyRead, hstate]
  refine ⟨w, ?_, ?_⟩
  · rw [h1, hw]
  · rw [h1]
    have h2 : (read_header c).packet_state = PACKET_EXPECT.BODY := by rw [hw]
    have h3 : onReadyRead (read_header c) = read_body (read_header c) := by
      simp [onReadyRead, h2]
    rw [h3, read_body_available (read_header c) p rest (by rw [hw]) (by rw [hw]) hpos hlt, hw]

theorem drive_frames (ps : List Text) : ∀ (c : Connection) (fuel : Nat),
    c.packet_state = PACKET_EXPECT.HEADER → c.in_stream = frames ps →
    (∀ p ∈ ps, 0 < p.length ∧ p.length < 2 ^ 31) → 2 * ps.length ≤ fuel →
    (drive fuel c).handled = c.handled ++ ps
      ∧ (drive fuel c).packet_state = PACKET_EXPECT.HEADER
      ∧ (drive fuel c).in_stream = [] := by
  induction ps with
  | nil =>
    intro c fuel hstate hin _ _
    have hd : drive fuel c = c := by
      cases fuel with
      | zero => rfl
      | succ f => simp [drive, atEnd, hin, frames]
    rw [hd]
    exact ⟨by simp, hstate, by simpa [frames] using hin⟩
  | cons p ps ih =>
    intro c fuel hstate hin hps hfuel
    obtain ⟨hpos, hlt⟩ := hps p (List.mem_cons_self _ _)
    obtain ⟨f, rfl⟩ : ∃ f, fuel = f + 2 := ⟨fuel - 2, by simp at hfuel; omega⟩
    obtain ⟨w, h1, h2⟩ := frame_two_steps p (frames ps) c hstate (by rw [hin]; rfl) hpos hlt
    have hne : p ≠ [] := List.ne_nil_of_length_pos hpos
    have e1 : atEnd c = false := by
      simp [atEnd, hin, frames, frame, headerbuf]
    have e2 : atEnd (onReadyRead c) = false := by
      rw [h1]; simp [atEnd, hne]
    have hd : drive (f + 2) c = drive f (onReadyRead (onReadyRead c)) := by
      rw [drive, e1]
      simp only [Bool.false_eq_true, if_false]
      rw [drive, e2]
      simp only [Bool.false_eq_true, if_false]
    obtain ⟨i1, i2, i3⟩ := ih (onReadyRead (onReadyRead c)) f (by rw [h2]) (by rw [h2])
      (fun q hq => hps q (List.mem_cons_of_mem _ hq)) (by simp at hfuel; omega)
    rw [hd]
    refine ⟨?_, i2, i3⟩
    rw [i1, h2]
    simp

/-- When each declared length is the number of characters of its body, as it
is for bodies of ASCII characters, and is positive and below `2 ^ 31`:
stepping the state machine over the concatenation of the frames, from waiting
for a header until the input is exhausted, calls the handler once per
message, with exactly the bodies in the order of arrival, and ends waiting
for a header. -/
theorem frames_are_delivered_in_order (ps : List Text) (c : Connection) (fuel : Nat)
    (hstate : c.packet_state = PACKET_EXPECT.HEADER) (hin : c.in_stream = frames ps)
    (hps : ∀ p ∈ ps, 0 < p.length ∧ p.length < 2 ^ 31) (hfuel : 2 * ps.length ≤ fuel) :
    (drive fuel c).handled = c.handled ++ ps
      ∧ (drive fuel c).packet_state = PACKET_EXPECT.HEADER
      ∧ (drive fuel c).in_stream = [] :=
  drive_frames ps c fuel hstate hin hps hfuel

theorem frames_are_delivered_in_order_witness :
    (drive 4 (idle (frames ["\x7b\"id\":1\x7d".toList, "ok".toList]))).handled
        = (idle (frames ["\x7b\"id\":1\x7d".toList, "ok".toList])).handled
          ++ ["\x7b\"id\":1\x7d".toList, "ok".toList]
      ∧ (drive 4 (idle (frames ["\x7b\"id\":1\x7d".toList, "ok".toList]))).packet_state
        = PACKET_EXPECT.HEADER
      ∧ (drive 4 (idle (frames ["\x7b\"id\":1\x7d".toList, "ok".toList]))).in_stream = [] :=
  frames_are_delivered_in_order ["\x7b\"id\":1\x7d".toList, "ok".toList]
    (idle (frames ["\x7b\"id\":1\x7d".toList, "ok".toList])) 4 rfl rfl (by decide) (by decide)

/-- C16: `send` for a response transmits the message with the fallback id
when the message has no id and with its own id otherwise, as one frame of the
encoded message; the table of pending requests and the id counter are left
as they are. -/
theorem send_response_uses_fallback_id (store : ResponseMessage → Text) (c : Connection)
    (m : ResponseMessage) (f : RequestId) :
    (send_ResponseMessage store c m f).2
        = (if m.id.type = IdType.UNSET then { m with id := f } else m)
      ∧ (send_ResponseMessage store c m f).1.out_stream
        = c.out_stream ++ frame (store (send_ResponseMessage store c m f).2)
      ∧ (send_ResponseMessage store c m f).1.pending_messages = c.pending_messages
      ∧ (send_ResponseMessage store c m f).1.next_request_id = c.next_request_id := by
  refine ⟨?_, ?_, rfl, rfl⟩
  · by_cases h : m.id.type = IdType.UNSET <;> simp [send_ResponseMessage, RequestId.is_set, h]
  · simp [send_ResponseMessage, send, frame]

/-! ## Claims on header lines and on the header step -/

theorem find_two_unfold (p q x y : Char) (t : Text) :
    find [p, q] (x :: y :: t)
      = if x = p ∧ y = q then some 0 else (find [p, q] (y :: t)).map (fun i => i + 1) := by
  by_cases h : x = p ∧ y = q
  · obtain ⟨h1, h2⟩ := h
    simp [find, List.isPrefixOf, h1, h2]
  · have hp : List.isPrefixOf [p, q] (x :: y :: t) = false := by
      simp only [List.isPrefixOf, Bool.and_true, Bool.and_eq_false_imp, beq_iff_eq,
        beq_eq_false_iff_ne, ne_eq]
      intro h1 h2
      exact h ⟨h1.symm, h2.symm⟩
    rw [find, hp]
    simp [h]

theorem find_two_single (p q x : Char) : find [p, q] [x] = none := by
  simp [find, List.isPrefixOf]

/-- The search finds the first occurrence of a pattern of two characters. -/
theorem find_two_first (p q : Char) (a b : Text) (h : ¬ [p, q] <:+: a ++ [p]) :
    find [p, q] (a ++ p :: q :: b) = some a.length := by
  induction a with
  | nil => simp [find, List.isPrefixOf]
  | cons x a ih =>
    have htail : ¬ [p, q] <:+: a ++ [p] := by
      intro hi
      apply h
      obtain ⟨s, t, hst⟩ := hi
      exact ⟨x :: s, t, by simp [← hst]⟩
    have hx : ¬ (x = p ∧ (a ++ p :: q :: b).head? = some q) := by
      rintro ⟨h1, h2⟩
      apply h
      cases a with
      | nil =>
        simp only [List.nil_append, List.head?_cons, Option.some.injEq] at h2
        exact ⟨[], [], by simp [h1, h2]⟩
      | cons y a =>
        simp only [List.cons_append, List.head?_cons, Option.some.injEq] at h2
        exact ⟨[], a ++ [p], by simp [h1, h2]⟩
    cases hc : a ++ p :: q :: b with
    | nil => simp at hc
    | cons y t =>
      have hy : ¬ (x = p ∧ y = q) := by
        intro hxy
        apply hx
        rw [hc]
        exact ⟨hxy.1, by simp [hxy.2]⟩
      rw [List.cons_append, hc, find_two_unfold, if_neg hy, ← hc, ih htail]
      simp

/-- The search finds nothing where the pattern of two characters does not
occur. -/
theorem find_two_none (p q : Char) (s : Text) (h : ¬ [p, q] <:+: s) : find [p, q] s = none := by
  induction s with
  | nil => simp [find, List.isPrefixOf]
  | cons x s ih =>
    have htail : ¬ [p, q] <:+: s := by
      intro hi
      apply h
      obtain ⟨u, t, hut⟩ := hi
      exact ⟨x :: u, t, by simp [← hut]⟩
    cases s with
    | nil => exact find_two_single p q x
    | cons y t =>
      have hxy : ¬ (x = p ∧ y = q) := by
        rintro ⟨h1, h2⟩
        apply h
        exact ⟨[], t, by simp [h1, h2]⟩
      rw [find_two_unfold, if_neg hxy, ih htail]
      rfl

/-- On a line as `readLine` delivers it, without "\r\n", the function
`read_header_line` splits at the first ": ": the name is the text before it,
the value the whole remainder; a line without ": " gives the empty name. -/
theorem read_header_line_without_terminator (name value line : Text)
    (hterm : ¬ "\r\n".toList <:+: line) :
    (line = name ++ ": ".toList ++ value → ¬ ": ".toList <:+: name ++ [':'] →
        read_header_line line = (name, value))
      ∧ (¬ ": ".toList <:+: line → read_header_line line = ([], "no sep".toList)) := by
  have ht : find "\r\n".toList line = none := find_two_none '\r' '\n' line hterm
  constructor
  · intro hl hfirst
    have hs : find ": ".toList line = some name.length := by
      rw [hl]
      have := find_two_first ':' ' ' name value hfirst
      simpa using this
    simp only [read_header_line, hs, ht, substr]
    rw [hl]
    simp
  · intro hno
    have hs : find ": ".toList line = none := find_two_none ':' ' ' line hno
    simp only [read_header_line, hs]

/-- Outside the lines that `readLine` returns: on the text "a: b\r\n"
`read_header_line` gives the value "b\r\n", because the position of "\r\n"
is given to `substr` as a count of characters.  The function has one caller,
`read_header`, which passes lines of `readLine`; these have no line feed
(`readLine_no_line_feed`), so the search for "\r\n" finds nothing there. -/
theorem read_header_line_keeps_terminator :
    read_header_line "a: b\r\n".toList = ("a".toList, "b\r\n".toList)
      ∧ (read_header_line "a: b\r\n".toList).2 ≠ "b".toList
      ∧ (read_header_line "a: b\r\n".toList).1 ++ ": ".toList
          ++ (read_header_line "a: b\r\n".toList).2 = "a: b\r\n".toList
      ∧ find "\r\n".toList "a: b\r\n".toList = some 4
      ∧ substr "a: b\r\n".toList 3 (some 4) = "b\r\n".toList
      ∧ read_header_line "a: b".toList = ("a".toList, "b".toList) := by
  decide

theorem lines_after_blank_none (ls : List Text) :
    lines_after_blank ls = none ↔ ∀ l ∈ ls, is_strip_empty l = false := by
  induction ls with
  | nil => simp [lines_after_blank]
  | cons l ls ih =>
    by_cases hb : is_strip_empty l = true
    · simp [lines_after_blank, hb]
    · simp only [lines_after_blank, hb, Bool.false_eq_true, if_false, ih, List.mem_cons,
        forall_eq_or_imp]
      simp [hb]

theorem lines_after_blank_split (pre post : List Text) (bl : Text)
    (hpre : ∀ l ∈ pre, is_strip_empty l = false) (hbl : is_strip_empty bl = true) :
    lines_after_blank (pre ++ bl :: post) = some post := by
  induction pre with
  | nil => simp [lines_after_blank, hbl]
  | cons l pre ih =>
    have hl : is_strip_empty l = false := hpre l (List.mem_cons_self _ _)
    simp only [List.cons_append, lines_after_blank, hl, Bool.false_eq_true, if_false]
    exact ih (fun l2 h2 => hpre l2 (List.mem_cons_of_mem _ h2))

theorem header_field_header_other (c : Connection) (l : Text)
    (h : (read_header_line l).1 ≠ "Content-Length".toList) :
    (header_field c l).header = c.header := by
  obtain ⟨w, hw⟩ := header_field_other c l h
  rw [hw]

/-- The header step over complete lines: where it stops, and what it leaves of
the input, the state and the header. -/
theorem read_header_lines (ls : List Text) : ∀ c : Connection,
    c.in_stream = header_block ls → (∀ l ∈ ls, '\n' ∉ l) →
    (lines_after_blank ls = none →
        (read_header c).in_stream = [] ∧ (read_header c).packet_state = c.packet_state)
      ∧ (∀ post, lines_after_blank ls = some post →
        (read_header c).in_stream = header_block post
          ∧ (read_header c).packet_state = PACKET_EXPECT.BODY)
      ∧ ((∀ l ∈ ls, (read_header_line l).1 ≠ "Content-Length".toList) →
        (read_header c).header = c.header) := by
  induction ls with
  | nil =>
    intro c hin _
    have hnil : c.in_stream = [] := by simpa [header_block] using hin
    rw [read_header_atEnd c hnil]
    refine ⟨fun _ => ⟨hnil, rfl⟩, fun post h => ?_, fun _ => rfl⟩
    simp [lines_after_blank] at h
  | cons l ls ih =>
    intro c hin hlines
    have hl : '\n' ∉ l := hlines l (List.mem_cons_self _ _)
    have hin2 : c.in_stream = l ++ '\r' :: '\n' :: header_block ls := by
      rw [hin]; simp [header_block]
    by_cases hb : is_strip_empty l = true
    · rw [read_header_blank_step c l _ hin2 hl hb]
      refine ⟨fun h => ?_, fun post h => ?_, fun _ => rfl⟩
      · simp [lines_after_blank, hb] at h
      · simp only [lines_after_blank, hb, if_true, Option.some.injEq] at h
        rw [← h]
        exact ⟨rfl, rfl⟩
    · have hb2 : is_strip_empty l = false := by simpa using hb
      rw [read_header_line_step c l _ hin2 hl hb2]
      obtain ⟨i1, i2, i3⟩ := ih (header_field { c with in_stream := header_block ls } l)
        (by simp) (fun l2 h2 => hlines l2 (List.mem_cons_of_mem _ h2))
      refine ⟨fun h => ?_, fun post h => ?_, fun h => ?_⟩
      · simp only [lines_after_blank, hb2, Bool.false_eq_true, if_false] at h
        simpa using i1 h
      · simp only [lines_after_blank, hb2, Bool.false_eq_true, if_false] at h
        exact i2 post h
      · rw [i3 (fun l2 h2 => h l2 (List.mem_cons_of_mem _ h2)),
          header_field_header_other _ l (h l (List.mem_cons_self _ _))]

theorem header_field_with_in_stream (c : Connection) (a : Text) (l : Text) :
    header_field { c with in_stream := a } l = { header_field c l with in_stream := a } := by
  unfold header_field warn; dsimp only; split_ifs <;> rfl

theorem read_header_resume (xs : List Text) : ∀ (c : Connection) (more : Text),
    c.in_stream = header_block xs → (∀ l ∈ xs, '\n' ∉ l ∧ is_strip_empty l = false) →
    read_header (arrive (read_header c) more)
      = read_header { c with in_stream := header_block xs ++ more } := by
  induction xs with
  | nil =>
    intro c more hin _
    have hnil : c.in_stream = [] := by simpa [header_block] using hin
    rw [read_header_atEnd c hnil]
    simp [arrive, hnil, header_block]
  | cons x xs ih =>
    intro c more hin hxs
    obtain ⟨hx, hb⟩ := hxs x (List.mem_cons_self _ _)
    have hin2 : c.in_stream = x ++ '\r' :: '\n' :: header_block xs := by
      rw [hin]; simp [header_block]
    rw [read_header_line_step c x _ hin2 hx hb]
    rw [read_header_line_step { c with in_stream := header_block (x :: xs) ++ more } x
      (header_block xs ++ more) (by simp [header_block]) hx hb]
    rw [ih (header_field { c with in_stream := header_block xs } x) more (by simp)
      (fun l h => hxs l (List.mem_cons_of_mem _ h))]
    congr 1
    simp only [header_field_with_in_stream]

/-- C19: header parsing resumes.  For complete header lines `xs` without a
blank line, the header step on `xs` exhausts the input and keeps waiting for a
header; when the lines `ys` arrive afterwards, a second header step ends in
the same state, with the same header, the same packet state and the same
unread input, as one header step on `xs ++ ys`. -/
theorem header_step_resumes (xs ys : List Text) (c : Connection)
    (hin : c.in_stream = header_block xs)
    (hxs : ∀ l ∈ xs, '\n' ∉ l ∧ is_strip_empty l = false) :
    (read_header c).in_stream = []
      ∧ (read_header c).packet_state = c.packet_state
      ∧ read_header (arrive (read_header c) (header_block ys))
        = read_header { c with in_stream := header_block (xs ++ ys) }
      ∧ (read_header (arrive (read_header c) (header_block ys))).header
        = (read_header { c with in_stream := header_block (xs ++ ys) }).header
      ∧ (read_header (arrive (read_header c) (header_block ys))).packet_state
        = (read_header { c with in_stream := header_block (xs ++ ys) }).packet_state
      ∧ (read_header (arrive (read_header c) (header_block ys))).in_stream
        = (read_header { c with in_stream := header_block (xs ++ ys) }).in_stream := by
  obtain ⟨h1, -, -⟩ := read_header_lines xs c hin (fun l h => (hxs l h).1)
  obtain ⟨a, b⟩ := h1 ((lines_after_blank_none xs).mpr (fun l h => (hxs l h).2))
  have e := read_header_resume xs c (header_block ys) hin hxs
  rw [← header_block_append] at e
  rw [e]
  exact ⟨a, b, rfl, rfl, rfl, rfl⟩

theorem header_step_resumes_witness :
    (read_header (idle (header_block early_lines))).in_stream = []
      ∧ (read_header (idle (header_block early_lines))).packet_state
        = (idle (header_block early_lines)).packet_state
      ∧ read_header (arrive (read_header (idle (header_block early_lines)))
          (header_block late_lines))
        = read_header { idle (header_block early_lines) with
            in_stream := header_block (early_lines ++ late_lines) }
      ∧ (read_header (arrive (read_header (idle (header_block early_lines)))
          (header_block late_lines))).header
        = (read_header { idle (header_block early_lines) with
            in_stream := header_block (early_lines ++ late_lines) }).header
      ∧ (read_header (arrive (read_header (idle (header_block early_lines)))
          (header_block late_lines))).packet_state
        = (read_header { idle (header_block early_lines) with
            in_stream := header_block (early_lines ++ late_lines) }).packet_state
      ∧ (read_header (arrive (read_header (idle (header_block early_lines)))
          (header_block late_lines))).in_stream
        = (read_header { idle (header_block early_lines) with
            in_stream := header_block (early_lines ++ late_lines) }).in_stream :=
  header_step_resumes early_lines late_lines (idle (header_block early_lines)) rfl (by decide)

/-! ## Claim on a request whose id is pending already -/

theorem send_request_invoked (store : RequestMessage → Text) (now : Int) (c : Connection)
    (msg : RequestMessage) (method : Text) (id : RequestId) (callback : request_callback_t) :
    (send_RequestMessage store now c msg method id callback).1.invoked = c.invoked := by
  simp only [send_RequestMessage, send]
  split_ifs <;> rfl

/-- C20: when `send` is called for a request with a concrete integer id that
is a key of the table already, the entry that is there stays as it is
(callback and time stamp) and the new callback is not stored: the table is
unchanged, with the same keys and the same size, and a later response with
that id calls the earlier callback. -/
theorem pending_id_keeps_earlier_entry (store : RequestMessage → Text) (now : Int)
    (c : Connection) (msg : RequestMessage) (method : Text) (id : RequestId)
    (callback : request_callback_t) (e : pending_message) (resp : ResponseMessage)
    (hint : (request_id_of msg id).type = IdType.INT)
    (hkey : map_find c.pending_messages (request_id_of msg id).value_int = some e)
    (hresp : resp.id.type = IdType.INT
      ∧ resp.id.value_int = (request_id_of msg id).value_int) :
    (send_RequestMessage store now c msg method id callback).1.pending_messages
        = c.pending_messages
      ∧ map_keys (send_RequestMessage store now c msg method id callback).1.pending_messages
        = map_keys c.pending_messages
      ∧ (send_RequestMessage store now c msg method id callback).1.pending_messages.length
        = c.pending_messages.length
      ∧ map_find (send_RequestMessage store now c msg method id callback).1.pending_messages
          (request_id_of msg id).value_int = some e
      ∧ (handle_pending_response
          (send_RequestMessage store now c msg method id callback).1 resp).invoked
        = c.invoked ++ [(e.callback, resp)] := by
  obtain ⟨-, -, e3⟩ := send_request_effect store now c msg method id callback
  obtain ⟨-, hp⟩ := e3 (by rw [hint]; decide) (by rw [hint]; decide)
  have hsame : (send_RequestMessage store now c msg method id callback).1.pending_messages
      = c.pending_messages := by
    rw [hp]
    exact map_emplace_present _ _ _ (by rw [hkey]; simp)
  refine ⟨hsame, by rw [hsame], by rw [hsame], by rw [hsame]; exact hkey, ?_⟩
  simp [handle_pending_response, hresp.1, hresp.2, hsame, hkey,
    send_request_invoked store now c msg method id callback]

theorem pending_id_keeps_earlier_entry_witness :
    (send_RequestMessage plain_store 5 explicit_zero_pending
        { id := int_id 0, method := "b".toList, content := [] } [] {} 9).1.pending_messages
        = explicit_zero_pending.pending_messages
      ∧ map_keys (send_RequestMessage plain_store 5 explicit_zero_pending
        { id := int_id 0, method := "b".toList, content := [] } [] {} 9).1.pending_messages
        = map_keys explicit_zero_pending.pending_messages
      ∧ (send_RequestMessage plain_store 5 explicit_zero_pending
        { id := int_id 0, method := "b".toList, content := [] } [] {} 9
          ).1.pending_messages.length
        = explicit_zero_pending.pending_messages.length
      ∧ map_find (send_RequestMessage plain_store 5 explicit_zero_pending
        { id := int_id 0, method := "b".toList, content := [] } [] {} 9).1.pending_messages
          (request_id_of { id := int_id 0, method := "b".toList, content := [] } {}).value_int
        = some ⟨7, 0⟩
      ∧ (handle_pending_response
          (send_RequestMessage plain_store 5 explicit_zero_pending
            { id := int_id 0, method := "b".toList, content := [] } [] {} 9).1
          { id := int_id 0, content := "ok".toList }).invoked
        = explicit_zero_pending.invoked
          ++ [((⟨7, 0⟩ : pending_message).callback, { id := int_id 0, content := "ok".toList })] :=
  pending_id_keeps_earlier_entry plain_store 5 explicit_zero_pending
    { id := int_id 0, method := "b".toList, content := [] } [] {} 9 ⟨7, 0⟩
    { id := int_id 0, content := "ok".toList } rfl rfl ⟨rfl, rfl⟩

/-! ## Bytes on the wire and characters in the stream -/

/-- C3 (failing input): the frame of the body "é", which is one character and
two bytes, declares "Content-Length: 2"; it is followed by the start of the
next message.  The body step reads two characters: the handler is given
"éC", the body and the first character of the next message, and the next
message is left without its first character. -/
theorem multibyte_body_is_over_read :
    utf8_size "é".toList = 2
      ∧ wire_frame "é".toList ++ "Content-".toList
        = "Content-Length: 2\r\n\r\néContent-".toList
      ∧ (onReadyRead (idle (wire_frame "é".toList ++ "Content-".toList))).header.content_length
        = 2
      ∧ (onReadyRead (onReadyRead
          (idle (wire_frame "é".toList ++ "Content-".toList)))).handled = ["éC".toList]
      ∧ (onReadyRead (onReadyRead
          (idle (wire_frame "é".toList ++ "Content-".toList)))).in_stream = "ontent-".toList
      ∧ (onReadyRead (onReadyRead
          (idle (wire_frame "é".toList ++ "Content-".toList)))).packet_state
        = PACKET_EXPECT.HEADER := by
  decide

/-- C15 (failing input): the frames of the two messages "é" and "x", one after
the other.  Stepping the state machine until the input is exhausted calls the
handler once, with "éC": the body of the first message and the first
character of the frame of the second.  The second message is never handed
over. -/
theorem multibyte_frames_are_mixed :
    wire_frame "é".toList ++ wire_frame "x".toList
        = "Content-Length: 2\r\n\r\néContent-Length: 1\r\n\r\nx".toList
      ∧ (drive 10 (idle (wire_frame "é".toList ++ wire_frame "x".toList))).in_stream = []
      ∧ (drive 10 (idle (wire_frame "é".toList ++ wire_frame "x".toList))).handled
        = ["éC".toList]
      ∧ (drive 10 (idle (wire_frame "é".toList ++ wire_frame "x".toList))).handled
        ≠ ["é".toList, "x".toList]
      ∧ (drive 4 (idle (wire_frame "é".toList ++ wire_frame "x".toList))).handled
        = ["éC".toList] := by
  decide

/-! ## Header lines as `readLine` returns them -/

theorem lineOf_no_line_feed (s : Text) : '\n' ∉ lineOf s := by
  induction s with
  | nil => simp [lineOf]
  | cons x s ih =>
    by_cases hx : x = '\n'
    · simp [lineOf, hx]
    · simp only [lineOf, hx, if_false, List.mem_cons, not_or]
      exact ⟨fun e => hx e.symm, ih⟩

theorem dropTrailingCR_subset (l : Text) (ch : Char) (h : ch ∈ dropTrailingCR l) : ch ∈ l := by
  induction l with
  | nil => simp [dropTrailingCR] at h
  | cons x l ih =>
    cases l with
    | nil =>
      by_cases hx : x = '\r'
      · simp [dropTrailingCR, hx] at h
      · simpa [dropTrailingCR, hx] using h
    | cons y l =>
      simp only [dropTrailingCR, List.mem_cons] at h
      rcases h with h | h
      · simp [h]
      · exact List.mem_cons_of_mem _ (ih h)

/-- A line that `readLine` returns has no line feed. -/
theorem readLine_no_line_feed (s : Text) : '\n' ∉ (readLine s).1 := fun h =>
  lineOf_no_line_feed s (dropTrailingCR_subset _ _ h)

theorem no_terminator_of_no_line_feed (l : Text) (h : '\n' ∉ l) : ¬ "\r\n".toList <:+: l := by
  rintro ⟨a, b, hab⟩
  apply h
  rw [← hab]
  simp

theorem before_terminator_of_no_line_feed (l : Text) (h : '\n' ∉ l) :
    before_terminator l = l := by
  induction l with
  | nil => rfl
  | cons x l ih =>
    cases l with
    | nil => rfl
    | cons y l =>
      have hy : y ≠ '\n' := fun e => h (by simp [e])
      have hl : '\n' ∉ y :: l := fun e => h (List.mem_cons_of_mem _ e)
      simp only [before_terminator, hy, and_false, if_false, ih hl]

/-- C17: for every header line that `read_header` passes to
`read_header_line`, that is, every line that `readLine` returns: when the
line contains the separator ": ", the field name is the text before the first
occurrence and the field value is the text after that occurrence up to, and
not including, the terminator "\r\n", which is the whole remainder since the
line has no terminator, so that name, separator and value make the line
without its terminator; a line without ": " gives the no-separator result
with the empty field name. -/
theorem read_header_line_splits_at_separator (s name value : Text)
    (hline : (readLine s).1 = name ++ ": ".toList ++ value)
    (hfirst : ¬ ": ".toList <:+: name ++ [':']) :
    read_header_line (readLine s).1 = (name, before_terminator value)
      ∧ before_terminator value = value
      ∧ name ++ ": ".toList ++ before_terminator value = before_terminator (readLine s).1
      ∧ (∀ line : Text, ¬ ": ".toList <:+: line →
        read_header_line line = ([], "no sep".toList)) := by
  have hno : '\n' ∉ (readLine s).1 := readLine_no_line_feed s
  have hval : '\n' ∉ value := by
    intro h
    apply hno
    rw [hline]
    simp [h]
  have hbv : before_terminator value = value := before_terminator_of_no_line_feed value hval
  have hbl : before_terminator (readLine s).1 = (readLine s).1 :=
    before_terminator_of_no_line_feed _ hno
  have hsplit := (read_header_line_without_terminator name value (readLine s).1
    (no_terminator_of_no_line_feed _ hno)).1 hline hfirst
  refine ⟨by rw [hbv]; exact hsplit, hbv, by rw [hbv, hbl, hline], ?_⟩
  intro line hsep
  have hs : find ": ".toList line = none := find_two_none ':' ' ' line hsep
  simp only [read_header_line, hs]

theorem read_header_line_splits_at_separator_witness :
    read_header_line (readLine "Content-Type: a: b\r\nrest".toList).1
        = ("Content-Type".toList, before_terminator "a: b".toList)
      ∧ before_terminator "a: b".toList = "a: b".toList
      ∧ "Content-Type".toList ++ ": ".toList ++ before_terminator "a: b".toList
        = before_terminator (readLine "Content-Type: a: b\r\nrest".toList).1
      ∧ (∀ line : Text, ¬ ": ".toList <:+: line →
        read_header_line line = ([], "no sep".toList)) :=
  read_header_line_splits_at_separator "Content-Type: a: b\r\nrest".toList
    "Content-Type".toList "a: b".toList (by decide) (by decide)

/-! ## The header step and blank lines -/

theorem isspace_iff (ch : Char) :
    isspace ch = true ↔ ch ∈ [' ', '\t', '\n', '\x0b', '\x0c', '\r'] := by
  simp only [isspace, Bool.or_eq_true, beq_iff_eq, List.mem_cons, List.mem_singleton,
    List.not_mem_nil, or_false, or_assoc]

/-- The test `is_strip_empty` holds of the lines in which every character is
white space, and of no other. -/
theorem is_strip_empty_iff (l : Text) : is_strip_empty l = true ↔ whitespace_only l := by
  induction l with
  | nil => simp [is_strip_empty, whitespace_only]
  | cons x l ih =>
    by_cases hx : isspace x = true
    · have hm := (isspace_iff x).mp hx
      simp only [is_strip_empty, hx, Bool.not_true, Bool.false_eq_true, if_false, ih]
      constructor
      · intro h ch hch
        rcases List.mem_cons.mp hch with e | e
        · rw [e]; exact hm
        · exact h ch e
      · intro h ch hch
        exact h ch (List.mem_cons_of_mem _ hch)
    · have hf : isspace x = false := by simpa using hx
      simp only [is_strip_empty, hf, Bool.not_false, if_true, Bool.false_eq_true, false_iff]
      intro h
      exact hx ((isspace_iff x).mpr (h x (List.mem_cons_self _ _)))

theorem is_strip_empty_false_iff (l : Text) :
    is_strip_empty l = false ↔ ¬ whitespace_only l := by
  rw [← is_strip_empty_iff]
  cases is_strip_empty l <;> simp

/-- Where the search finds a pattern of two characters, the pattern stands. -/
theorem find_two_some (p q : Char) (s : Text) : ∀ i : Nat, find [p, q] s = some i →
    ∃ a b, s = a ++ p :: q :: b ∧ a.length = i := by
  induction s with
  | nil => intro i h; simp [find, List.isPrefixOf] at h
  | cons x s ih =>
    intro i h
    cases s with
    | nil => simp [find_two_single] at h
    | cons y t =>
      rw [find_two_unfold] at h
      by_cases hxy : x = p ∧ y = q
      · rw [if_pos hxy] at h
        obtain ⟨h1, h2⟩ := hxy
        refine ⟨[], t, by simp [h1, h2], ?_⟩
        simpa using h
      · rw [if_neg hxy] at h
        cases hf : find [p, q] (y :: t) with
        | none => simp [hf] at h
        | some j =>
          simp only [hf, Option.map_some', Option.some.injEq] at h
          obtain ⟨a, b, hab, hlen⟩ := ih j hf
          exact ⟨x :: a, b, by simp [hab], by simp [hlen, h]⟩

/-- The field name "Content-Length" is found only on a line that starts with
"Content-Length: ". -/
theorem content_length_name_starts (l : Text)
    (h : (read_header_line l).1 = "Content-Length".toList) :
    "Content-Length: ".toList <+: l := by
  cases hf : find ": ".toList l with
  | none =>
    simp only [read_header_line, hf] at h
    exact absurd h (by decide)
  | some i =>
    obtain ⟨a, b, hab, hlen⟩ := find_two_some ':' ' ' l i hf
    simp only [read_header_line, hf, substr] at h
    rw [hab, ← hlen] at h
    simp only [List.drop_zero, List.take_left'] at h
    refine ⟨b, ?_⟩
    rw [hab, h]
    simp

theorem not_content_length_name (l : Text) (h : ¬ "Content-Length: ".toList <+: l) :
    (read_header_line l).1 ≠ "Content-Length".toList :=
  fun e => h (content_length_name_starts l e)

/-- C18: for every list of complete input lines, the header step ends waiting
for a body if and only if the list has a blank line, one in which every
character is white space; it then has taken the lines up to and including the
first blank line and nothing after it; otherwise it takes every line and
keeps waiting for a header.  Lines that do not start a Content-Length field
(unknown fields, Content-Type lines, lines without a separator) change neither
`content_length` nor the state. -/
theorem header_step_stops_at_first_blank (ls : List Text) (c : Connection)
    (hstate : c.packet_state = PACKET_EXPECT.HEADER) (hin : c.in_stream = header_block ls)
    (hlines : ∀ l ∈ ls, '\n' ∉ l) :
    onReadyRead c = read_header c
      ∧ ((read_header c).packet_state = PACKET_EXPECT.BODY ↔ ∃ l ∈ ls, whitespace_only l)
      ∧ (∀ pre bl post, ls = pre ++ bl :: post → (∀ l ∈ pre, ¬ whitespace_only l) →
        whitespace_only bl →
        (read_header c).packet_state = PACKET_EXPECT.BODY
          ∧ (read_header c).in_stream = header_block post)
      ∧ ((∀ l ∈ ls, ¬ whitespace_only l) →
        (read_header c).packet_state = PACKET_EXPECT.HEADER ∧ (read_header c).in_stream = [])
      ∧ ((∀ l ∈ ls, ¬ "Content-Length: ".toList <+: l) →
        (read_header c).header = c.header)
      ∧ (∀ (d : Connection) (l : Text), ¬ "Content-Length: ".toList <+: l →
        (header_field d l).header = d.header
          ∧ (header_field d l).packet_state = d.packet_state) := by
  obtain ⟨h1, h2, h3⟩ := read_header_lines ls c hin hlines
  have hnone : (∀ l ∈ ls, ¬ whitespace_only l) →
      (read_header c).packet_state = PACKET_EXPECT.HEADER ∧ (read_header c).in_stream = [] := by
    intro hall
    obtain ⟨a, b⟩ := h1 ((lines_after_blank_none ls).mpr
      (fun l hl => (is_strip_empty_false_iff l).mpr (hall l hl)))
    exact ⟨by rw [b, hstate], a⟩
  have hsplit : ∀ pre bl post, ls = pre ++ bl :: post →
      (∀ l ∈ pre, ¬ whitespace_only l) → whitespace_only bl →
      (read_header c).packet_state = PACKET_EXPECT.BODY
        ∧ (read_header c).in_stream = header_block post := by
    intro pre bl post hls hpre hbl
    obtain ⟨a, b⟩ := h2 post (by
      rw [hls]
      exact lines_after_blank_split pre post bl
        (fun l hl => (is_strip_empty_false_iff l).mpr (hpre l hl))
        ((is_strip_empty_iff bl).mpr hbl))
    exact ⟨b, a⟩
  refine ⟨by simp [onReadyRead, hstate], ⟨fun hbody => ?_, fun hex => ?_⟩, hsplit, hnone,
    fun hall => h3 (fun l hl => not_content_length_name l (hall l hl)),
    fun d l hl => ⟨header_field_header_other d l (not_content_length_name l hl),
      header_field_packet_state d l⟩⟩
  · by_contra hno
    have hall : ∀ l ∈ ls, ¬ whitespace_only l := fun l hl hw => hno ⟨l, hl, hw⟩
    rw [(hnone hall).1] at hbody
    exact absurd hbody (by decide)
  · cases hv : lines_after_blank ls with
    | none =>
      obtain ⟨l, hl, hbl⟩ := hex
      have := (lines_after_blank_none ls).mp hv l hl
      rw [(is_strip_empty_iff l).mpr hbl] at this
      exact absurd this (by decide)
    | some post => exact (h2 post hv).2

theorem header_step_stops_at_first_blank_witness :
    onReadyRead (idle (header_block mixed_lines)) = read_header (idle (header_block mixed_lines))
      ∧ ((read_header (idle (header_block mixed_lines))).packet_state = PACKET_EXPECT.BODY
        ↔ ∃ l ∈ mixed_lines, whitespace_only l)
      ∧ (∀ pre bl post, mixed_lines = pre ++ bl :: post →
        (∀ l ∈ pre, ¬ whitespace_only l) → whitespace_only bl →
        (read_header (idle (header_block mixed_lines))).packet_state = PACKET_EXPECT.BODY
          ∧ (read_header (idle (header_block mixed_lines))).in_stream = header_block post)
      ∧ ((∀ l ∈ mixed_lines, ¬ whitespace_only l) →
        (read_header (idle (header_block mixed_lines))).packet_state = PACKET_EXPECT.HEADER
          ∧ (read_header (idle (header_block mixed_lines))).in_stream = [])
      ∧ ((∀ l ∈ mixed_lines, ¬ "Content-Length: ".toList <+: l) →
        (read_header (idle (header_block mixed_lines))).header
          = (idle (header_block mixed_lines)).header)
      ∧ (∀ (d : Connection) (l : Text), ¬ "Content-Length: ".toList <+: l →
        (header_field d l).header = d.header
          ∧ (header_field d l).packet_state = d.packet_state) :=
  header_step_stops_at_first_blank mixed_lines (idle (header_block mixed_lines)) rfl rfl
    (by decide)

end Lsp
